import Mathlib

/-!
Verification development for the Tariff Saver storage engine
(`custom_components/tariff_saver/storage.py`).

Modelling conventions (shallow embedding):

* Instants (UTC datetimes and epoch timestamps) are rationals `ℚ`, in
  seconds.  `dt_util.as_utc` is the identity on instants, and
  `datetime.isoformat` is injective on UTC instants, so a `price_slots`
  dictionary keyed by ISO strings is keyed here by the instant itself.
* Python floats are modelled as rationals (exact arithmetic); the float
  literal `1e-6` is modelled as `1/1000000`.
* Python dicts are association lists; assignment `d[k] = v` replaces the
  value in place when the key exists and appends otherwise (insertion
  order preserved), exactly like `dict` assignment.
* Dynamically typed values (raw storage blobs, runtime `isinstance`
  checks) are modelled by the inductive `JVal`.  `bool` is a subtype of
  `int` in Python, so `isinstance(v, (int, float))` accepts booleans.
* Code that can raise (`float(x)` on a non-numeric value) runs in
  `Except Unit`.  `float` applied to a string parses plain decimal
  literals; exotic forms (exponents, `inf`, `nan`) are out of scope for
  every claim and are modelled as failures.
* The ambient clock `dt_util.utcnow()` (used only by the trimming
  helpers) is passed explicitly as a `realNow : ℚ` argument.
* The local timezone is modelled as a fixed UTC offset `off : ℚ`
  (seconds east); `dt_util.now()` is then `nowI + off` read as a naive
  local timestamp, and `as_utc` of a naive local value subtracts `off`.
-/

set_option maxRecDepth 2000

/-- Association list over string keys with rational values: the model of a
Python `dict[str, float]`. -/
abbrev AL := List (String × ℚ)

/-- Generic association list keyed by an arbitrary decidable type (used
with `ℚ` keys for `price_slots` and with `String` keys for raw blobs). -/
def alLookupG {κ α : Type} [DecidableEq κ] (k : κ) : List (κ × α) → Option α
  | [] => none
  | (k1, v1) :: rest => if k1 = k then some v1 else alLookupG k rest

/-- Generic dict assignment (replace in place or append). -/
def alInsertG {κ α : Type} [DecidableEq κ] (k : κ) (v : α) :
    List (κ × α) → List (κ × α)
  | [] => [(k, v)]
  | (k1, v1) :: rest =>
      if k1 = k then (k, v) :: rest else (k1, v1) :: alInsertG k v rest

/-- Generic key removal, the model of `d.pop(k, None)`. -/
def alEraseG {κ α : Type} [DecidableEq κ] (k : κ) :
    List (κ × α) → List (κ × α)
  | [] => []
  | (k1, v1) :: rest =>
      if k1 = k then rest else (k1, v1) :: alEraseG k rest

/-- First-match lookup, the model of `d.get(k)` / `d[k]` on a
`dict[str, float]` (keys of a Python dict are unique, so first match is
the match). -/
def alLookup (k : String) (m : AL) : Option ℚ := alLookupG k m

/-- Lookup with default, the model of `d.get(k, d0)`. -/
def alLookupD (k : String) (m : AL) (d0 : ℚ) : ℚ := (alLookup k m).getD d0

/-- Dict assignment `d[k] = v`: replace in place if present, append
otherwise. -/
def alInsert (k : String) (v : ℚ) (m : AL) : AL := alInsertG k v m

/-- Dynamically typed Python/JSON value, as found in raw storage blobs. -/
inductive JVal where
  | jnull
  | jbool (b : Bool)
  | jnum (q : ℚ)
  | jstr (s : String)
  | jlist (xs : List JVal)
  | jdict (kvs : List (String × JVal))

/-- Model of `isinstance(v, (int, float))`.  `bool` is a subclass of
`int` in Python, so booleans pass the check. -/
def pyIsNum : JVal → Bool
  | .jnum _ => true
  | .jbool _ => true
  | _ => false

/-- Model of Python truthiness (`bool(v)`). -/
def pyTruthy : JVal → Bool
  | .jnull => false
  | .jbool b => b
  | .jnum q => q ≠ 0
  | .jstr s => s ≠ ""
  | .jlist xs => !xs.isEmpty
  | .jdict kvs => !kvs.isEmpty

/-- Numeric value of a `JVal` that passed `pyIsNum` (`float(v)` for a
number or boolean). -/
def pyNumVal : JVal → ℚ
  | .jnum q => q
  | .jbool b => if b then 1 else 0
  | _ => 0

/-- Parse an optional sign followed by digits and an optional decimal
fraction, the plain-literal fragment of Python `float(str)`. -/
def parseDecDigits : List Char → Option ℕ
  | [] => none
  | cs =>
      if cs.all Char.isDigit then
        some (cs.foldl (fun a c => a * 10 + (c.toNat - 48)) 0)
      else none

/-- Decimal string to rational, the model of `float` applied to a plain
decimal string literal. -/
def parseDecString (s : String) : Option ℚ :=
  let cs := s.toList
  let (sign, body) :=
    match cs with
    | '-' :: rest => ((-1 : ℚ), rest)
    | '+' :: rest => ((1 : ℚ), rest)
    | _ => ((1 : ℚ), cs)
  match body.splitOn '.' with
  | [ip] => (parseDecDigits ip).map (fun n => sign * n)
  | [ip, fp] =>
      match parseDecDigits ip, parseDecDigits fp with
      | some n, some f => some (sign * (n + (f : ℚ) / (10 : ℚ) ^ fp.length))
      | _, _ => none
  | _ => none

/-- Model of Python `float(v)` including its failure modes: numbers and
booleans convert, plain decimal strings parse, everything else raises
(`TypeError` / `ValueError`), modelled as `Except.error`. -/
def pyFloatE : JVal → Except Unit ℚ
  | .jnum q => .ok q
  | .jbool b => .ok (if b then 1 else 0)
  | .jstr s =>
      match parseDecString s with
      | some q => .ok q
      | none => .error ()
  | _ => .error ()

/-- Model of the idiom `float(v or 0.0)`: a falsy value becomes `0.0`
before conversion. -/
def pyFloatOr0 (v : JVal) : Except Unit ℚ :=
  if pyTruthy v then pyFloatE v else .ok 0

/-- Model of `str(v)` restricted to the shapes that occur in stored
blobs; numeric reprs are approximated (no claim depends on them). -/
def pyStr : JVal → String
  | .jnull => "None"
  | .jbool b => if b then "True" else "False"
  | .jstr s => s
  | .jnum _ => "<num>"
  | .jlist _ => "<list>"
  | .jdict _ => "<dict>"

/-- One meter observation: `{"ts": epoch_seconds, "kwh": float}`. -/
structure Sample where
  ts : ℚ
  kwh : ℚ
deriving DecidableEq, Repr

/-- One `price_slots` entry (v4 schema):
`{"dyn": {comp: val}, "base": {comp: val}|None, "api_integrated": float|None}`. -/
structure PriceEntry where
  dyn : AL
  base : Option AL
  apiIntegrated : Option ℚ
deriving DecidableEq, Repr

/-- One booked 15-minute slot:
`{"start": iso, "kwh": float, "status": str, "dyn": {...}, "base": {...}, "sav": {...}}`.
The `start` ISO string is represented by the instant it denotes. -/
structure BookedSlot where
  start : ℚ
  kwh : ℚ
  status : String
  dyn : AL
  base : AL
  sav : AL
deriving DecidableEq, Repr

/-- In-memory state of `TariffSaverStore` (the fields mutated by the
engine; the HA `Store` handle itself is external I/O). -/
structure TariffSaverStore where
  priceSlots : List (ℚ × PriceEntry)
  samples : List Sample
  booked : List BookedSlot
  lastApiSuccess : Option ℚ
  dirty : Bool
deriving DecidableEq, Repr

/-- `set_last_api_success`: stores the UTC instant and marks dirty. -/
def setLastApiSuccess (whenUtc : ℚ) (s : TariffSaverStore) : TariffSaverStore :=
  { s with lastApiSuccess := some whenUtc, dirty := true }

/-- `async_save`: writes the blob (external I/O) and clears the dirty
flag. -/
def asyncSave (s : TariffSaverStore) : TariffSaverStore :=
  { s with dirty := false }

/-- The dict comprehension
`{k: float(v) for k, v in components.items() if isinstance(v, (int, float))}`:
keep only numeric values, converted to float. -/
def numFilterMap (l : List (String × JVal)) : AL :=
  l.foldl
    (fun acc kv => if pyIsNum kv.2 then alInsert kv.1 (pyNumVal kv.2) acc else acc)
    []

/-- The `price_slots` entry built by `set_price_slot`: filtered dynamic
components, baseline mapped to `None` when falsy (`None` or empty dict)
and filtered otherwise, integrated total kept only when numeric. -/
def priceEntryOf (dynComponents : List (String × JVal))
    (baseComponents : Option (List (String × JVal))) (apiIntegrated : JVal) :
    PriceEntry :=
  ⟨numFilterMap dynComponents,
   match baseComponents with
   | some l => if l.isEmpty then none else some (numFilterMap l)
   | none => none,
   if pyIsNum apiIntegrated then some (pyNumVal apiIntegrated) else none⟩

/-- `set_price_slot`: filters non-numeric component values, overwrites
the entry at the exact slot-start key, and marks dirty. -/
def setPriceSlot (startUtc : ℚ) (dynComponents : List (String × JVal))
    (baseComponents : Option (List (String × JVal))) (apiIntegrated : JVal)
    (s : TariffSaverStore) : TariffSaverStore :=
  { s with
    priceSlots :=
      alInsertG startUtc (priceEntryOf dynComponents baseComponents apiIntegrated)
        s.priceSlots
    dirty := true }

/-- `get_price_components`: exact-key lookup returning
`(dynamic?, baseline?, integrated_total?)`, all `None` when absent.  In
the typed model a stored entry's `dyn` is always a dict, so the
`isinstance(dyn, dict)` check always passes. -/
def getPriceComponents (s : TariffSaverStore) (startUtc : ℚ) :
    Option AL × Option AL × Option ℚ :=
  match alLookupG startUtc s.priceSlots with
  | none => (none, none, none)
  | some e => (some e.dyn, e.base, e.apiIntegrated)

/-- `trim_price_slots`: drops entries whose slot-start is older than the
retention cutoff (`utcnow() - keep_days`); the ISO-string comparison
`k >= cutoff_iso` agrees with the chronological comparison on UTC
isoformat strings.  Marks dirty only when something was removed. -/
def trimPriceSlots (keepDays : ℚ) (realNow : ℚ) (s : TariffSaverStore) :
    TariffSaverStore :=
  { s with
    priceSlots :=
      s.priceSlots.filter (fun kv => realNow - keepDays * 86400 ≤ kv.1)
    dirty :=
      if (s.priceSlots.filter (fun kv => realNow - keepDays * 86400 ≤ kv.1)).length
          ≠ s.priceSlots.length then true
      else s.dirty }

/-- `_trim_samples`: keeps samples within the retention window. -/
def trimSamples (keepDays : ℚ) (realNow : ℚ) (l : List Sample) : List Sample :=
  l.filter (fun x => realNow - keepDays * 86400 ≤ x.ts)

/-- `add_sample`: rejects non-numeric readings, rejects a timestamp
within `1e-6` seconds of the most recent stored sample, otherwise
appends, trims to 14 days and marks dirty.  Returns the new state and
the boolean result. -/
def addSample (realNow : ℚ) (tsUtc : ℚ) (kwhTotal : JVal)
    (s : TariffSaverStore) : TariffSaverStore × Bool :=
  if pyIsNum kwhTotal = false then (s, false)
  else
    match s.samples.getLast? with
    | some l =>
        if |l.ts - tsUtc| < 1 / 1000000 then (s, false)
        else
          ({ s with
             samples := trimSamples 14 realNow (s.samples ++ [⟨tsUtc, pyNumVal kwhTotal⟩])
             dirty := true }, true)
    | none =>
        ({ s with
           samples := trimSamples 14 realNow (s.samples ++ [⟨tsUtc, pyNumVal kwhTotal⟩])
           dirty := true }, true)

/-- `_slot_start_utc`: floor an instant to the enclosing UTC-aligned
15-minute boundary (`replace(minute=(minute//15)*15, second=0,
microsecond=0)` equals `t - t mod 900` for every instant). -/
def slotStart (t : ℚ) : ℚ := 900 * (⌊t / 900⌋ : ℤ)

/-- `_trim_booked`: keeps booked slots whose start is within the
retention window (`utcnow() - keep_days`, `400 * 86400 = 34560000`
seconds); in the typed model every stored start parses. -/
def trimBooked (realNow : ℚ) (l : List BookedSlot) : List BookedSlot :=
  l.filter (fun b => realNow - 34560000 ≤ b.start)

/-- Stable insertion used by `sortSamples` (insert before the first
strictly greater timestamp, after equal ones). -/
def sortInsert (x : ℚ × ℚ) : List (ℚ × ℚ) → List (ℚ × ℚ)
  | [] => [x]
  | y :: ys => if x.1 ≤ y.1 then x :: y :: ys else y :: sortInsert x ys

/-- `sample_points.sort(key=lambda x: x[0])`: the stable sort by
timestamp (Python's `list.sort` is stable; a stable sort is computed by
this insertion sort). -/
def sortSamples : List (ℚ × ℚ) → List (ℚ × ℚ)
  | [] => []
  | x :: xs => sortInsert x (sortSamples xs)

/-- Scan of the inner `kwh_at`: keep the last value with timestamp
`<= t`, stop at the first later one (`prev` is the value kept so far). -/
def kwhAtGo (t : ℚ) : List (ℚ × ℚ) → Option ℚ → Option ℚ
  | [], prev => prev
  | (ts1, k1) :: rest, prev =>
      if ts1 ≤ t then kwhAtGo t rest (some k1) else prev

/-- The inner `kwh_at`: most recent sample value at-or-before `t`. -/
def kwhAt (pts : List (ℚ × ℚ)) (t : ℚ) : Option ℚ :=
  kwhAtGo t pts none

/-- The dynamic-cost (and baseline-cost) computation of
`finalize_due_slots`: for every component whose price is nonzero, cost
is `delta * price` (dict build in iteration order). -/
def dynCostOf (delta : ℚ) (prices : AL) : AL :=
  prices.foldl
    (fun acc kv => if kv.2 ≠ 0 then alInsert kv.1 (delta * kv.2) acc else acc) []

/-- The savings computation of `finalize_due_slots`: for every component
of the baseline cost map that also has a dynamic cost, savings is
`baseline - dynamic`. -/
def savOf (dynCost baseCost : AL) : AL :=
  baseCost.foldl
    (fun acc kv =>
      match alLookup kv.1 dynCost with
      | some d => alInsert kv.1 (kv.2 - d) acc
      | none => acc) []

/-- One iteration body of the `finalize_due_slots` loop: the booked
record appended for the slot `[c, c+900)`.  Mirrors lines 391-433 of
`storage.py` (the typed model makes the `isinstance` price check always
true; `if not dyn_prices` is Python falsiness, covering both `None` and
an empty dict). -/
def bookOne (ps : List (ℚ × PriceEntry)) (pts : List (ℚ × ℚ)) (c : ℚ) :
    BookedSlot :=
  match kwhAt pts c, kwhAt pts (c + 900) with
  | some ks, some ke =>
      let delta := ke - ks
      if delta < 0 then ⟨c, 0, "invalid", [], [], []⟩
      else
        match alLookupG c ps with
        | none => ⟨c, delta, "unpriced", [], [], []⟩
        | some e =>
            if e.dyn.isEmpty then ⟨c, delta, "unpriced", [], [], []⟩
            else
              let dynCost := dynCostOf delta e.dyn
              let baseCost :=
                match e.base with
                | some basePrices => dynCostOf delta basePrices
                | none => []
              let sav := savOf dynCost baseCost
              ⟨c, delta, if dynCost.isEmpty then "unpriced" else "ok",
                dynCost, baseCost, sav⟩
  | _, _ => ⟨c, 0, "missing_samples", [], [], []⟩

/-- Exact number of iterations the booking loop performs before the
`cursor < end_slot` guard fails. -/
def loopSteps (endSlot c : ℚ) : ℕ := (⌈(endSlot - c) / 900⌉ : ℤ).toNat

/-- Fuelled form of the booking loop.  The fuel passed by
`finalizeLoop` is the exact iteration count `loopSteps`, so fuel
exhaustion coincides with the loop guard failing;
`finalizeLoop_eq` below recovers the while-loop equation verbatim. -/
def finalizeLoopN (ps : List (ℚ × PriceEntry)) (pts : List (ℚ × ℚ))
    (cutoff endSlot : ℚ) : ℕ → ℚ → List BookedSlot
  | 0, _ => []
  | n + 1, c =>
      if c < endSlot then
        if cutoff < c + 900 then []
        else bookOne ps pts c :: finalizeLoopN ps pts cutoff endSlot n (c + 900)
      else []

/-- The while loop of `finalize_due_slots` (lines 386-435): starting at
`cursor = c`, book one slot per iteration and advance by 900 seconds,
stopping at `end_slot` or when the slot end would pass `cutoff`.
Returns the list of appended records in order. -/
def finalizeLoop (ps : List (ℚ × PriceEntry)) (pts : List (ℚ × ℚ))
    (cutoff endSlot c : ℚ) : List BookedSlot :=
  finalizeLoopN ps pts cutoff endSlot (loopSteps endSlot c) c

/-- `finalize_due_slots(now)`: requires two samples, computes
`cutoff = now - 1min`, starts the cursor one slot past the last booked
slot (or at the slot-aligned earliest sample), books every closed slot
up to `floor15(cutoff)`, then trims booked records to 400 days and
marks dirty if anything was appended.  `realNow` is the ambient
`utcnow()` used by the trim.  Returns the new state and the count of
newly booked slots.  Split here into the cursor-origin computation
(lines 379-381), the loop, and the epilogue. -/
def finalizeCursor0 (booked : List BookedSlot) (p0 : ℚ × ℚ) : ℚ :=
  match booked.getLast?.map BookedSlot.start with
  | some l => l + 900
  | none => slotStart p0.1

/-- Epilogue of `finalize_due_slots` (lines 437-440): when anything was
newly booked, trim booked records to the 400-day retention window and
mark dirty; the return value is the count of newly booked slots. -/
def finalizeFinish (realNow : ℚ) (s : TariffSaverStore)
    (newB : List BookedSlot) : TariffSaverStore × ℕ :=
  if newB.length = 0 then (s, 0)
  else
    ({ s with
       booked := trimBooked realNow (s.booked ++ newB)
       dirty := true }, newB.length)

def finalize (now realNow : ℚ) (s : TariffSaverStore) :
    TariffSaverStore × ℕ :=
  if s.samples.length < 2 then (s, 0)
  else
    match sortSamples (s.samples.map fun x => (x.ts, x.kwh)) with
    | [] => (s, 0)
    | p0 :: rest =>
        finalizeFinish realNow s
          (finalizeLoop s.priceSlots (p0 :: rest) (now - 60)
            (slotStart (now - 60)) (finalizeCursor0 s.booked p0))

/-- Slot-aligned start of the earliest sample, the cursor origin when
nothing has ever been booked. -/
def firstSampleSlot (s : TariffSaverStore) : Option ℚ :=
  match sortSamples (s.samples.map fun x => (x.ts, x.kwh)) with
  | [] => none
  | p0 :: _ => some (slotStart p0.1)

/-- The UTC-aligned 15-minute grid: `n` slot starts beginning at `a`. -/
def gridList (a : ℚ) (n : ℕ) : List ℚ :=
  (List.range n).map (fun i : ℕ => a + 900 * (i : ℚ))

/-- Civil date to day number since 1970-01-01 (proleptic Gregorian;
Howard Hinnant's `days_from_civil`, the arithmetic behind
`datetime.toordinal`).  All divisions act on non-negative operands. -/
def daysFromCivil (y m d : ℤ) : ℤ :=
  let y1 := y - (if m ≤ 2 then 1 else 0)
  let era := (if 0 ≤ y1 then y1 else y1 - 399) / 400
  let yoe := y1 - era * 400
  let doy := (153 * (m + (if 2 < m then -3 else 9)) + 2) / 5 + d - 1
  let doe := yoe * 365 + yoe / 4 - yoe / 100 + doy
  era * 146097 + doe - 719468

/-- Day number since 1970-01-01 to civil date `(year, month, day)`
(Hinnant's `civil_from_days`, the arithmetic behind
`datetime.fromordinal`). -/
def civilFromDays (z0 : ℤ) : ℤ × ℤ × ℤ :=
  let z := z0 + 719468
  let era := (if 0 ≤ z then z else z - 146096) / 146097
  let doe := z - era * 146097
  let yoe := (doe - doe / 1460 + doe / 36524 - doe / 146096) / 365
  let y := yoe + era * 400
  let doy := doe - (365 * yoe + yoe / 4 - yoe / 100)
  let mp := (5 * doy + 2) / 153
  let d := doy - (153 * mp + 2) / 5 + 1
  let m := mp + (if mp < 10 then 3 else -9)
  (y + (if m ≤ 2 then 1 else 0), m, d)

/-- Local midnight of the civil day containing the naive local
timestamp `l` (the effect of `replace(hour=0, minute=0, second=0,
microsecond=0)` on a local datetime, in local-naive seconds). -/
def floorDay (l : ℚ) : ℚ := 86400 * (⌊l / 86400⌋ : ℤ)

/-- ISO weekday (Monday=1 … Sunday=7) of the civil day containing the
naive local timestamp `l` (1970-01-01 was a Thursday, ISO 4). -/
def isoWeekday (l : ℚ) : ℤ := (⌊l / 86400⌋ + 3) % 7 + 1

/-- `_period_bounds(period)`: half-open `[start, end)` bounds in naive
local seconds, computed from the local civil reading
`nowL = nowI + off` of the clock (`dt_util.now()` with the local zone
modelled as the fixed offset `off`).  Unknown periods fall through to
the trailing today-shaped default. -/
def periodBounds (off nowI : ℚ) (period : String) : ℚ × ℚ :=
  let nowL := nowI + off
  if period = "today" then
    let start := floorDay nowL
    (start, start + 86400)
  else if period = "week" then
    let start := floorDay (nowL - 86400 * (isoWeekday nowL - 1))
    (start, start + 7 * 86400)
  else if period = "month" then
    let c := civilFromDays ⌊nowL / 86400⌋
    let start : ℚ := 86400 * (daysFromCivil c.1 c.2.1 1 : ℤ)
    let endD : ℤ :=
      if c.2.1 = 12 then daysFromCivil (c.1 + 1) 1 1
      else daysFromCivil c.1 (c.2.1 + 1) 1
    (start, 86400 * (endD : ℚ))
  else if period = "year" then
    let c := civilFromDays ⌊nowL / 86400⌋
    (86400 * (daysFromCivil c.1 1 1 : ℤ), 86400 * (daysFromCivil (c.1 + 1) 1 1 : ℤ))
  else
    let start := floorDay nowL
    (start, start + 86400)

/-- Accumulation `out[bucket][comp] = out[bucket].get(comp, 0.0) + val`. -/
def alAdd (k : String) (v : ℚ) (m : AL) : AL :=
  alInsert k (alLookupD k m 0 + v) m

/-- Add every component of one slot's bucket map into the running
bucket (the inner `for comp, val in m.items()` loop; in the typed model
every value passes the `isinstance` check). -/
def bumpBucket (m vals : AL) : AL :=
  vals.foldl (fun acc kv => alAdd kv.1 kv.2 acc) m

/-- The three per-component totals returned by the rollup. -/
structure Breakdown where
  dyn : AL
  base : AL
  sav : AL
deriving DecidableEq, Repr

/-- The membership test of `_sum_between_local`: the slot's start
instant lies in the half-open UTC interval obtained by converting the
naive local bounds (`as_utc` subtracts the fixed offset). -/
def slotInRange (off startL endL : ℚ) (b : BookedSlot) : Bool :=
  decide (startL - off ≤ b.start) && decide (b.start < endL - off)

/-- `_sum_between_local(start_local, end_local)`: sum each component
bucket independently over the booked slots inside the interval. -/
def sumBetweenLocal (off startL endL : ℚ) (booked : List BookedSlot) :
    Breakdown :=
  booked.foldl
    (fun out b =>
      if slotInRange off startL endL b then
        ⟨bumpBucket out.dyn b.dyn, bumpBucket out.base b.base,
          bumpBucket out.sav b.sav⟩
      else out)
    ⟨[], [], []⟩

/-- `compute_period_breakdown(period)`: bounds, then summation. -/
def computePeriodBreakdown (off nowI : ℚ) (period : String)
    (booked : List BookedSlot) : Breakdown :=
  let bounds := periodBounds off nowI period
  sumBetweenLocal off bounds.1 bounds.2 booked

/-- Instant (UTC seconds) of local midnight of the day containing the
instant `nowI`, for the fixed-offset local zone `off`. -/
def localMidnightInstant (off nowI : ℚ) : ℚ := floorDay (nowI + off) - off

/-- Raw-dict lookup, the model of `data.get(k)` on a blob. -/
def jGet (d : List (String × JVal)) (k : String) : Option JVal :=
  alLookupG k d

/-- Raw-dict lookup with default, the model of `data.get(k, v0)`. -/
def jGetD (d : List (String × JVal)) (k : String) (v0 : JVal) : JVal :=
  (jGet d k).getD v0

/-- `data.setdefault(k, v)`: insert (at the end, preserving insertion
order) only when the key is absent. -/
def jSetdefault (k : String) (v : JVal) (d : List (String × JVal)) :
    List (String × JVal) :=
  if (jGet d k).isSome then d else d ++ [(k, v)]

/-- The idiom `data.get(k) or fallback`: a missing or falsy value is
replaced by the fallback. -/
def jGetOr (d : List (String × JVal)) (k : String) (fb : JVal) : JVal :=
  match jGet d k with
  | some v => if pyTruthy v then v else fb
  | none => fb

/-- Migration of one legacy `price_slots` dict (lines 84-101): scalar
`dyn`/`base` entries become single-component `electricity` maps;
dict-based entries are copied; anything else is skipped.  All `float`
calls here are `isinstance`-guarded, so this part cannot raise. -/
def migPriceSlots (kvs : List (String × JVal)) : List (String × JVal) :=
  kvs.foldl
    (fun acc kv =>
      match kv.2 with
      | .jdict vd =>
          let dv := jGetD vd "dyn" .jnull
          if pyIsNum dv then
            let baseV := jGetD vd "base" .jnull
            let baseField : JVal :=
              if pyIsNum baseV then .jdict [("electricity", .jnum (pyNumVal baseV))]
              else .jnull
            alInsertG kv.1
              (.jdict [("dyn", .jdict [("electricity", .jnum (pyNumVal dv))]),
                       ("base", baseField), ("api_integrated", .jnull)]) acc
          else
            match dv with
            | .jdict _ => alInsertG kv.1 (.jdict vd) acc
            | _ => acc
      | _ => acc)
    []

/-- Migration of one legacy `samples` list (lines 104-121), parametric
in the external datetime parser `pdt` (`dt_util.parse_datetime`
composed with `as_utc(...).timestamp()`, host-library code not in this
repository).  Conversion failures are caught and the record skipped. -/
def migSamples (pdt : String → Option ℚ) (items : List JVal) : List JVal :=
  items.foldl
    (fun acc item =>
      match item with
      | .jdict idict =>
          if (jGet idict "ts").isSome ∧ (jGet idict "kwh").isSome then
            match pyFloatE (jGetD idict "ts" .jnull),
                pyFloatE (jGetD idict "kwh" .jnull) with
            | .ok t, .ok k => acc ++ [.jdict [("ts", .jnum t), ("kwh", .jnum k)]]
            | _, _ => acc
          else acc
      | .jlist [.jstr iso, kv] =>
          match pdt iso with
          | none => acc
          | some t =>
              match pyFloatE kv with
              | .ok k => acc ++ [.jdict [("ts", .jnum t), ("kwh", .jnum k)]]
              | .error _ => acc
      | _ => acc)
    []

/-- Migration of a v3 `booked` list (lines 128-146).  The
`float(b.get("dyn_chf", 0.0) or 0.0)` conversions are NOT guarded by
`try`, so a truthy non-numeric field propagates as an exception. -/
def migBookedV3 : List JVal → Except Unit (List JVal)
  | [] => .ok []
  | b :: rest =>
      match b with
      | .jdict bd =>
          if (jGet bd "start").isSome then
            if (jGet bd "dyn").isNone ∧
                ((jGet bd "dyn_chf").isSome ∨ (jGet bd "base_chf").isSome ∨
                  (jGet bd "savings_chf").isSome) then do
              let dyn ← pyFloatOr0 (jGetD bd "dyn_chf" (.jnum 0))
              let base ← pyFloatOr0 (jGetD bd "base_chf" (.jnum 0))
              let sav ← pyFloatOr0 (jGetD bd "savings_chf" (.jnum 0))
              let nb0 := alEraseG "savings_chf"
                (alEraseG "base_chf" (alEraseG "dyn_chf" bd))
              let nb := alInsertG "sav" (.jdict [("electricity", .jnum sav)])
                (alInsertG "base" (.jdict [("electricity", .jnum base)])
                  (alInsertG "dyn" (.jdict [("electricity", .jnum dyn)]) nb0))
              let tail ← migBookedV3 rest
              .ok (.jdict nb :: tail)
            else do
              let tail ← migBookedV3 rest
              .ok (.jdict bd :: tail)
          else migBookedV3 rest
      | _ => migBookedV3 rest

/-- Migration of a v2 `booked_slots` dict (lines 150-167), same
unguarded `float` conversions. -/
def migBookedV2 : List (String × JVal) → Except Unit (List JVal)
  | [] => .ok []
  | (startIso, payload) :: rest =>
      match payload with
      | .jdict pd => do
          let kwh ← pyFloatOr0 (jGetD pd "kwh" (.jnum 0))
          let dyn ← pyFloatOr0 (jGetD pd "dyn_chf" (jGetD pd "dyn" (.jnum 0)))
          let base ← pyFloatOr0 (jGetD pd "base_chf" (jGetD pd "base" (.jnum 0)))
          let sav ← pyFloatOr0 (jGetD pd "savings_chf" (jGetD pd "sav" (.jnum 0)))
          let status := pyStr (jGetD pd "status"
            (.jstr (if dyn ≠ 0 ∨ base ≠ 0 then "ok" else "unpriced")))
          let tail ← migBookedV2 rest
          .ok (.jdict [("start", .jstr startIso), ("kwh", .jnum kwh),
                ("status", .jstr status),
                ("dyn", .jdict [("electricity", .jnum dyn)]),
                ("base", .jdict [("electricity", .jnum base)]),
                ("sav", .jdict [("electricity", .jnum sav)])] :: tail)
      | _ => migBookedV2 rest

/-- Sort key of the v2 booked list, `str(x.get("start", ""))`. -/
def bookedSortKey : JVal → String
  | .jdict d => pyStr (jGetD d "start" (.jstr ""))
  | v => pyStr v

/-- Stable insertion for the v2 booked sort. -/
def sortBookedInsert (x : JVal) : List JVal → List JVal
  | [] => [x]
  | y :: ys =>
      if bookedSortKey x ≤ bookedSortKey y then x :: y :: ys
      else y :: sortBookedInsert x ys

/-- `new_booked.sort(key=lambda x: str(x.get("start", "")))` (stable). -/
def sortBooked : List JVal → List JVal
  | [] => []
  | x :: xs => sortBookedInsert x (sortBooked xs)

/-- `_async_migrate(old_version, old_minor, old_data)` (lines 68-179):
pass v4 blobs through (ensuring the three collection keys exist),
otherwise rebuild `price_slots`, `samples` and `booked` in v4 shape.
`pdt` is the external datetime parser; the result is `Except` because
the booked-record branches can raise. -/
def asyncMigrate (pdt : String → Option ℚ) (oldVersion : ℤ)
    (od : List (String × JVal)) : Except Unit (List (String × JVal)) :=
  if 4 ≤ oldVersion then
    .ok (jSetdefault "booked" (.jlist [])
      (jSetdefault "samples" (.jlist [])
        (jSetdefault "price_slots" (.jdict []) od)))
  else
    let nps : List (String × JVal) :=
      match jGetOr od "price_slots" (.jdict []) with
      | .jdict kvs => migPriceSlots kvs
      | _ => []
    let ns : List JVal :=
      match jGetOr od "samples" (.jlist []) with
      | .jlist items => migSamples pdt items
      | _ => []
    let nbE : Except Unit (List JVal) :=
      match jGet od "booked" with
      | some (.jlist l) => migBookedV3 l
      | _ =>
          match jGet od "booked_slots" with
          | some (.jdict kvs) => (migBookedV2 kvs).map sortBooked
          | _ => .ok []
    let la : JVal := jGetD od "last_api_success_utc" .jnull
    nbE.map (fun nb =>
      [("price_slots", .jdict nps), ("samples", .jlist ns),
       ("booked", .jlist nb), ("last_api_success_utc", la)])

/-! ### Association-list lemmas -/

theorem alLookupG_insert {κ α : Type} [DecidableEq κ] (q k : κ) (v : α)
    (m : List (κ × α)) :
    alLookupG q (alInsertG k v m) = if q = k then some v else alLookupG q m := by
  induction m with
  | nil =>
      by_cases h : q = k
      · subst h; simp [alInsertG, alLookupG]
      · simp [alInsertG, alLookupG, h, Ne.symm h]
  | cons hd tl ih =>
      obtain ⟨k1, v1⟩ := hd
      by_cases h1 : k1 = k
      · subst h1
        by_cases h2 : q = k1
        · subst h2; simp [alInsertG, alLookupG]
        · simp [alInsertG, alLookupG, h2, Ne.symm h2]
      · by_cases h2 : k1 = q
        · subst h2
          simp [alInsertG, alLookupG, h1]
        · simp [alInsertG, alLookupG, h1, h2, ih]

theorem alLookupG_eq_none_of_not_mem {κ α : Type} [DecidableEq κ] (q : κ)
    (m : List (κ × α)) (h : q ∉ m.map Prod.fst) : alLookupG q m = none := by
  induction m with
  | nil => rfl
  | cons hd tl ih =>
      obtain ⟨k1, v1⟩ := hd
      simp only [List.map_cons, List.mem_cons] at h
      push_neg at h
      simp [alLookupG, Ne.symm h.1, ih h.2]


/-! ### C9: unknown rollup periods fall back to "today" -/

/-- C9: for every period string outside `{today, week, month, year}`
(including the empty string or a misspelled name),
`compute_period_breakdown` does not raise (the model is a total
function) and returns exactly the result of
`compute_period_breakdown("today")`: the unknown period falls back to
the local-midnight-to-next-midnight bounds. -/
theorem unknown_period_defaults_to_today (off nowI : ℚ)
    (booked : List BookedSlot) (p : String) (h1 : p ≠ "today")
    (h2 : p ≠ "week") (h3 : p ≠ "month") (h4 : p ≠ "year") :
    computePeriodBreakdown off nowI p booked
      = computePeriodBreakdown off nowI "today" booked := by
  unfold computePeriodBreakdown periodBounds
  simp [h1, h2, h3, h4]

/-- Witness for C9 at the empty period string. -/
theorem unknown_period_defaults_to_today_witness :
    computePeriodBreakdown 3600 123456 ""
        [⟨0, 1, "ok", [("electricity", 2)], [], []⟩]
      = computePeriodBreakdown 3600 123456 "today"
        [⟨0, 1, "ok", [("electricity", 2)], [], []⟩] :=
  unknown_period_defaults_to_today 3600 123456
    [⟨0, 1, "ok", [("electricity", 2)], [], []⟩] ""
    (by decide) (by decide) (by decide) (by decide)

/-! ### C6: migration of malformed legacy booked records raises -/

/-- A v3 legacy blob with one partially-malformed booked record: the
`dyn_chf` field holds a truthy non-numeric string. -/
def c6BadBlob : List (String × JVal) :=
  [("booked", .jlist [.jdict
    [("start", .jstr "2024-01-01T00:00:00+00:00"), ("dyn_chf", .jstr "x")]])]

/-- C6: the migration does NOT skip this partially-malformed legacy
booked record — `float(b.get("dyn_chf", 0.0) or 0.0)` on the truthy
non-numeric value raises (storage.py line 134 has no `try`), so the
whole migration aborts with an exception instead of skipping the
record, for every datetime parser. -/
theorem migrate_malformed_booked_raises (pdt : String → Option ℚ) :
    asyncMigrate pdt 3 c6BadBlob = .error () := rfl

/-! ### C10: sample dedup only checks the most recent sample -/

/-- C10: `add_sample` deduplicates only against the most recently
stored sample: a timestamp within `1e-6` seconds of the last sample's
is rejected (returns false, no mutation), while a timestamp that
coincides with an earlier, non-last stored sample is accepted and
appended. -/
theorem add_sample_dedup_only_last (realNow ts : ℚ) (k : JVal)
    (s : TariffSaverStore) :
    (∀ l, s.samples.getLast? = some l → |l.ts - ts| < 1 / 1000000 →
      addSample realNow ts k s = (s, false))
    ∧ (∀ l d, s.samples.getLast? = some l → ¬|l.ts - ts| < 1 / 1000000 →
        pyIsNum k = true → d ∈ s.samples.dropLast → |d.ts - ts| < 1 / 1000000 →
        realNow - 1209600 ≤ ts →
        (addSample realNow ts k s).2 = true
          ∧ (⟨ts, pyNumVal k⟩ : Sample) ∈ (addSample realNow ts k s).1.samples) := by
  constructor
  · intro l hl hnear
    by_cases hn : pyIsNum k = false
    · unfold addSample
      rw [if_pos hn]
    · unfold addSample
      rw [if_neg hn, hl]
      exact if_pos hnear
  · intro l d hl hfar hnum hd hdup hts
    have hnf : ¬pyIsNum k = false := by rw [hnum]; exact fun h => Bool.noConfusion h
    simp only [addSample, if_neg hnf, hl, if_neg hfar]
    refine ⟨trivial, ?_⟩
    unfold trimSamples
    refine List.mem_filter.mpr
      ⟨List.mem_append_right _ (List.mem_singleton_self _), ?_⟩
    simp only [decide_eq_true_eq]
    linarith

/-- Witness for C10: the last sample is at `t=1000`, an earlier sample
at `t=500`; a new sample at `t=500` (an exact duplicate of the older
one) is accepted, while a new sample at `t=1000` is rejected. -/
theorem add_sample_dedup_only_last_witness :
    (addSample 0 1000 (.jnum 7)
        ⟨[], [⟨500, 1⟩, ⟨1000, 2⟩], [], none, false⟩
      = (⟨[], [⟨500, 1⟩, ⟨1000, 2⟩], [], none, false⟩, false))
    ∧ ((addSample 0 500 (.jnum 7)
        ⟨[], [⟨500, 1⟩, ⟨1000, 2⟩], [], none, false⟩).2 = true
      ∧ (⟨500, 7⟩ : Sample) ∈ (addSample 0 500 (.jnum 7)
        ⟨[], [⟨500, 1⟩, ⟨1000, 2⟩], [], none, false⟩).1.samples) :=
  ⟨(add_sample_dedup_only_last 0 1000 (.jnum 7)
      ⟨[], [⟨500, 1⟩, ⟨1000, 2⟩], [], none, false⟩).1
      ⟨1000, 2⟩ (by with_unfolding_all decide) (by with_unfolding_all decide),
   (add_sample_dedup_only_last 0 500 (.jnum 7)
      ⟨[], [⟨500, 1⟩, ⟨1000, 2⟩], [], none, false⟩).2
      ⟨1000, 2⟩ ⟨500, 1⟩ (by with_unfolding_all decide)
      (by with_unfolding_all decide) (by with_unfolding_all decide)
      (by with_unfolding_all decide) (by with_unfolding_all decide)
      (by with_unfolding_all decide)⟩

/-! ### C5: the dirty-flag contract -/

theorem addSample_cases (realNow ts : ℚ) (k : JVal) (s : TariffSaverStore) :
    addSample realNow ts k s = (s, false)
      ∨ ((addSample realNow ts k s).1.dirty = true
          ∧ (addSample realNow ts k s).2 = true) := by
  unfold addSample
  split
  · exact Or.inl rfl
  · split
    · split
      · exact Or.inl rfl
      · exact Or.inr ⟨rfl, rfl⟩
    · exact Or.inr ⟨rfl, rfl⟩

theorem finalizeFinish_cases (realNow : ℚ) (s : TariffSaverStore)
    (newB : List BookedSlot) :
    finalizeFinish realNow s newB = (s, 0)
      ∨ ((finalizeFinish realNow s newB).1.dirty = true
          ∧ 1 ≤ (finalizeFinish realNow s newB).2) := by
  unfold finalizeFinish
  split
  · exact Or.inl rfl
  · next h => exact Or.inr ⟨rfl, Nat.one_le_iff_ne_zero.mpr h⟩

theorem finalize_cases (now realNow : ℚ) (s : TariffSaverStore) :
    finalize now realNow s = (s, 0)
      ∨ ((finalize now realNow s).1.dirty = true
          ∧ 1 ≤ (finalize now realNow s).2) := by
  unfold finalize
  split
  · exact Or.inl rfl
  · split
    · exact Or.inl rfl
    · exact finalizeFinish_cases _ _ _

/-- Projection lemmas for `trimPriceSlots` (definitional). -/
theorem trimPriceSlots_dirty (kd rn : ℚ) (s : TariffSaverStore) :
    (trimPriceSlots kd rn s).dirty
      = if (s.priceSlots.filter (fun kv => rn - kd * 86400 ≤ kv.1)).length
            ≠ s.priceSlots.length then true
        else s.dirty := rfl

theorem trimPriceSlots_priceSlots (kd rn : ℚ) (s : TariffSaverStore) :
    (trimPriceSlots kd rn s).priceSlots
      = s.priceSlots.filter (fun kv => rn - kd * 86400 ≤ kv.1) := rfl

/-- C5: every mutation path that changes persisted state sets the dirty
flag (a successful `add_sample`, `set_price_slot`,
`set_last_api_success`, a `finalize_due_slots` call that books at least
one slot, a `trim_price_slots` that removes entries), those mutation
paths never clear it, and the save operation clears it. -/
theorem dirty_flag_contract (s : TariffSaverStore) (realNow now t kd : ℚ)
    (k : JVal) (d : List (String × JVal))
    (b : Option (List (String × JVal))) (a : JVal) :
    ((addSample realNow t k s).2 = true → (addSample realNow t k s).1.dirty = true)
    ∧ (setPriceSlot t d b a s).dirty = true
    ∧ (setLastApiSuccess t s).dirty = true
    ∧ (1 ≤ (finalize now realNow s).2 → (finalize now realNow s).1.dirty = true)
    ∧ ((trimPriceSlots kd realNow s).priceSlots.length ≠ s.priceSlots.length →
        (trimPriceSlots kd realNow s).dirty = true)
    ∧ (asyncSave s).dirty = false
    ∧ (s.dirty = true →
        (addSample realNow t k s).1.dirty = true
        ∧ (finalize now realNow s).1.dirty = true
        ∧ (trimPriceSlots kd realNow s).dirty = true) := by
  refine ⟨?_, rfl, rfl, ?_, ?_, rfl, ?_⟩
  · intro h
    rcases addSample_cases realNow t k s with hc | hc
    · rw [hc] at h; cases h
    · exact hc.1
  · intro h
    rcases finalize_cases now realNow s with hc | hc
    · rw [hc] at h; omega
    · exact hc.1
  · intro h
    rw [trimPriceSlots_priceSlots] at h
    rw [trimPriceSlots_dirty, if_pos h]
  · intro hd
    refine ⟨?_, ?_, ?_⟩
    · rcases addSample_cases realNow t k s with hc | hc
      · rw [hc]; exact hd
      · exact hc.1
    · rcases finalize_cases now realNow s with hc | hc
      · rw [hc]; exact hd
      · exact hc.1
    · rw [trimPriceSlots_dirty]
      split
      · rfl
      · exact hd

/-- Concrete store exercising every dirty-setting path: one price slot,
three samples spanning one closed 15-minute window, nothing booked. -/
def c5Store : TariffSaverStore :=
  ⟨[(0, ⟨[("electricity", 1/5)], some [("electricity", 1/4)], none⟩)],
   [⟨0, 100⟩, ⟨300, 401/4⟩, ⟨1200, 909/10⟩], [], none, true⟩

/-- Witness for C5: on `c5Store`, `add_sample` succeeds and sets dirty,
`set_price_slot` and `set_last_api_success` set dirty, `finalize` books
a slot and sets dirty, a trim that removes the (now expired) price slot
sets dirty, and save clears it. -/
theorem dirty_flag_contract_witness :
    (addSample 1000000000 5000 (.jnum 7) c5Store).1.dirty = true
    ∧ (setPriceSlot 0 [("electricity", .jnum 1)] none .jnull c5Store).dirty = true
    ∧ (setLastApiSuccess 0 c5Store).dirty = true
    ∧ (finalize 1020 1000000000 c5Store).1.dirty = true
    ∧ (trimPriceSlots 7 1000000000 c5Store).dirty = true
    ∧ (asyncSave c5Store).dirty = false :=
  ⟨(dirty_flag_contract c5Store 1000000000 1020 5000 7 (.jnum 7)
      [("electricity", .jnum 1)] none .jnull).1 (by with_unfolding_all decide),
   (dirty_flag_contract c5Store 1000000000 1020 0 7 (.jnum 7)
      [("electricity", .jnum 1)] none .jnull).2.1,
   (dirty_flag_contract c5Store 1000000000 1020 0 7 (.jnum 7)
      [("electricity", .jnum 1)] none .jnull).2.2.1,
   (dirty_flag_contract c5Store 1000000000 1020 5000 7 (.jnum 7)
      [("electricity", .jnum 1)] none .jnull).2.2.2.1 (by with_unfolding_all decide),
   (dirty_flag_contract c5Store 1000000000 1020 5000 7 (.jnum 7)
      [("electricity", .jnum 1)] none .jnull).2.2.2.2.1 (by with_unfolding_all decide),
   (dirty_flag_contract c5Store 1000000000 1020 5000 7 (.jnum 7)
      [("electricity", .jnum 1)] none .jnull).2.2.2.2.2.1⟩

/-! ### C8: price-slot overwrite semantics -/

theorem numFilterMap_fold_none (comp : String) (l : List (String × JVal))
    (acc : AL) (h : ∀ v, (comp, v) ∈ l → pyIsNum v = false) :
    alLookup comp
      (l.foldl
        (fun acc kv =>
          if pyIsNum kv.2 then alInsert kv.1 (pyNumVal kv.2) acc else acc) acc)
      = alLookup comp acc := by
  induction l generalizing acc with
  | nil => rfl
  | cons hd tl ih =>
      obtain ⟨k1, v1⟩ := hd
      simp only [List.foldl_cons]
      rcases hnum : pyIsNum v1 with _ | _
      · rw [if_neg (by simp [hnum])]
        exact ih acc (fun v hv => h v (List.mem_cons_of_mem _ hv))
      · have hk : k1 ≠ comp := by
          intro hkc
          subst hkc
          have := h v1 (List.mem_cons_self _ _)
          rw [hnum] at this
          cases this
        rw [if_pos (by simp [hnum])]
        rw [ih _ (fun v hv => h v (List.mem_cons_of_mem _ hv))]
        unfold alLookup alInsert
        rw [alLookupG_insert]
        rw [if_neg (fun hh => hk hh.symm)]

theorem numFilterMap_lookup_none (comp : String) (l : List (String × JVal))
    (h : ∀ v, (comp, v) ∈ l → pyIsNum v = false) :
    alLookup comp (numFilterMap l) = none := by
  unfold numFilterMap
  rw [numFilterMap_fold_none comp l [] h]
  rfl

/-- C8: price slots are last-write-wins per exact slot-start key —
after two `set_price_slot` calls at the same `slot_start` only the
second call's values are retrievable via `get_price_components`; a
`slot_start` with no entry returns all-`None`; and a component all of
whose supplied dynamic values are non-numeric is silently dropped from
the stored dynamic map. -/
theorem price_overwrite_semantics (s : TariffSaverStore) (t : ℚ)
    (d1 d2 : List (String × JVal)) (b1 b2 : Option (List (String × JVal)))
    (a1 a2 : JVal) :
    getPriceComponents (setPriceSlot t d2 b2 a2 (setPriceSlot t d1 b1 a1 s)) t
      = getPriceComponents (setPriceSlot t d2 b2 a2 s) t
    ∧ (alLookupG t s.priceSlots = none →
        getPriceComponents s t = (none, none, none))
    ∧ (∀ comp : String, (∀ v, (comp, v) ∈ d2 → pyIsNum v = false) →
        ∃ dm, (getPriceComponents (setPriceSlot t d2 b2 a2 s) t).1 = some dm
          ∧ alLookup comp dm = none) := by
  refine ⟨?_, ?_, ?_⟩
  · unfold getPriceComponents setPriceSlot
    simp [alLookupG_insert]
  · intro h
    unfold getPriceComponents
    rw [h]
  · intro comp hc
    refine ⟨numFilterMap d2, ?_, numFilterMap_lookup_none comp d2 hc⟩
    unfold getPriceComponents setPriceSlot
    simp [alLookupG_insert, priceEntryOf]

/-- Witness for C8: overwriting the electricity price at slot 900,
looking up the absent slot 900 in `c5Store`, and writing a component
`"x"` whose only supplied value is a non-numeric string. -/
theorem price_overwrite_semantics_witness :
    getPriceComponents
        (setPriceSlot 900 [("x", .jstr "a"), ("electricity", .jnum 2)] none .jnull
          (setPriceSlot 900 [("electricity", .jnum (1/5))]
            (some [("electricity", .jnum (1/4))]) (.jnum 1) c5Store)) 900
      = getPriceComponents
        (setPriceSlot 900 [("x", .jstr "a"), ("electricity", .jnum 2)] none .jnull
          c5Store) 900
    ∧ getPriceComponents c5Store 900 = (none, none, none)
    ∧ ∃ dm, (getPriceComponents
        (setPriceSlot 900 [("x", .jstr "a"), ("electricity", .jnum 2)] none .jnull
          c5Store) 900).1 = some dm ∧ alLookup "x" dm = none := by
  obtain ⟨h1, h2, h3⟩ := price_overwrite_semantics c5Store 900
    [("electricity", .jnum (1/5))] [("x", .jstr "a"), ("electricity", .jnum 2)]
    (some [("electricity", .jnum (1/4))]) none (.jnum 1) .jnull
  refine ⟨h1, h2 (by with_unfolding_all decide), h3 "x" ?_⟩
  intro v hv
  have hva : v = .jstr "a" := by simpa using hv
  subst hva
  rfl

/-! ### C3: component cost and savings intersection -/

theorem alInsertG_keys_mem {κ α : Type} [DecidableEq κ] (q k : κ) (v : α)
    (m : List (κ × α)) :
    q ∈ (alInsertG k v m).map Prod.fst ↔ q = k ∨ q ∈ m.map Prod.fst := by
  induction m with
  | nil => simp [alInsertG]
  | cons hd tl ih =>
      obtain ⟨k1, v1⟩ := hd
      by_cases h1 : k1 = k
      · subst h1
        have hins : alInsertG k1 v ((k1, v1) :: tl) = (k1, v) :: tl := by
          simp [alInsertG]
        rw [hins]
        simp only [List.map_cons, List.mem_cons]
        tauto
      · have hins : alInsertG k v ((k1, v1) :: tl)
            = (k1, v1) :: alInsertG k v tl := by
          simp [alInsertG, h1]
        rw [hins]
        simp only [List.map_cons, List.mem_cons, ih]
        tauto

theorem alInsertG_keys_nodup {κ α : Type} [DecidableEq κ] (k : κ) (v : α)
    (m : List (κ × α)) (h : (m.map Prod.fst).Nodup) :
    ((alInsertG k v m).map Prod.fst).Nodup := by
  induction m with
  | nil => simp [alInsertG]
  | cons hd tl ih =>
      obtain ⟨k1, v1⟩ := hd
      simp only [List.map_cons, List.nodup_cons] at h
      by_cases h1 : k1 = k
      · subst h1
        have hins : alInsertG k1 v ((k1, v1) :: tl) = (k1, v) :: tl := by
          simp [alInsertG]
        rw [hins]
        simpa using h
      · have hins : alInsertG k v ((k1, v1) :: tl)
            = (k1, v1) :: alInsertG k v tl := by
          simp [alInsertG, h1]
        rw [hins]
        simp only [List.map_cons, List.nodup_cons]
        refine ⟨?_, ih h.2⟩
        rw [alInsertG_keys_mem]
        rintro (h2 | h2)
        · exact h1 h2
        · exact h.1 h2

theorem foldl_insert_keys_nodup {β : Type} (step : AL → β → AL)
    (hstep : ∀ acc kv, step acc kv = acc ∨ ∃ k v, step acc kv = alInsert k v acc)
    (l : List β) (acc : AL) (hacc : (acc.map Prod.fst).Nodup) :
    ((l.foldl step acc).map Prod.fst).Nodup := by
  induction l generalizing acc with
  | nil => exact hacc
  | cons hd tl ih =>
      simp only [List.foldl_cons]
      refine ih (step acc hd) ?_
      rcases hstep acc hd with h | ⟨k, v, h⟩
      · rw [h]; exact hacc
      · rw [h]; exact alInsertG_keys_nodup k v acc hacc

theorem dynCostOf_keys_nodup (delta : ℚ) (prices : AL) :
    ((dynCostOf delta prices).map Prod.fst).Nodup := by
  unfold dynCostOf
  refine foldl_insert_keys_nodup _ ?_ prices [] (by simp)
  intro acc kv
  by_cases h : kv.2 ≠ 0
  · exact Or.inr ⟨kv.1, delta * kv.2, by rw [if_pos h]⟩
  · exact Or.inl (by rw [if_neg h])

theorem dynCostOf_fold_lookup (delta : ℚ) (l : AL) (acc : AL) (comp : String)
    (hnd : (l.map Prod.fst).Nodup) :
    alLookup comp
      (l.foldl
        (fun acc kv => if kv.2 ≠ 0 then alInsert kv.1 (delta * kv.2) acc else acc)
        acc)
      = match alLookup comp l with
        | some p => if p ≠ 0 then some (delta * p) else alLookup comp acc
        | none => alLookup comp acc := by
  induction l generalizing acc with
  | nil => simp [alLookup, alLookupG]
  | cons hd tl ih =>
      obtain ⟨k1, p1⟩ := hd
      simp only [List.map_cons, List.nodup_cons] at hnd
      simp only [List.foldl_cons]
      rw [ih _ hnd.2]
      by_cases hck : k1 = comp
      · subst hck
        have htl : alLookup k1 tl = none :=
          alLookupG_eq_none_of_not_mem k1 tl hnd.1
        have hhd : alLookup k1 ((k1, p1) :: tl) = some p1 := by
          simp [alLookup, alLookupG]
        simp only [htl, hhd]
        by_cases hp : p1 ≠ 0 <;>
          simp [hp, alLookup, alInsert, alLookupG_insert]
      · have hhd : alLookup comp ((k1, p1) :: tl) = alLookup comp tl := by
          simp [alLookup, alLookupG, hck]
        have hacc :
            alLookup comp
                (if p1 ≠ 0 then alInsert k1 (delta * p1) acc else acc)
              = alLookup comp acc := by
          by_cases hp : p1 ≠ 0
          · rw [if_pos hp]
            show alLookupG comp (alInsertG k1 (delta * p1) acc)
              = alLookupG comp acc
            rw [alLookupG_insert, if_neg (fun h => hck h.symm)]
          · rw [if_neg hp]
        rw [hhd]
        cases htl2 : alLookup comp tl with
        | none => simp only [htl2]; exact hacc
        | some p => simp only [htl2]; rw [hacc]

theorem dynCostOf_lookup (delta : ℚ) (prices : AL) (comp : String)
    (hnd : (prices.map Prod.fst).Nodup) :
    alLookup comp (dynCostOf delta prices)
      = match alLookup comp prices with
        | some p => if p ≠ 0 then some (delta * p) else none
        | none => none := by
  unfold dynCostOf
  rw [dynCostOf_fold_lookup delta prices [] comp hnd]
  cases alLookup comp prices <;> simp [alLookup, alLookupG]

theorem savOf_fold_lookup (dc : AL) (bc : AL) (acc : AL) (comp : String)
    (hnd : (bc.map Prod.fst).Nodup) :
    alLookup comp
      (bc.foldl
        (fun acc kv =>
          match alLookup kv.1 dc with
          | some d => alInsert kv.1 (kv.2 - d) acc
          | none => acc)
        acc)
      = match alLookup comp bc with
        | some bv =>
            match alLookup comp dc with
            | some dv => some (bv - dv)
            | none => alLookup comp acc
        | none => alLookup comp acc := by
  induction bc generalizing acc with
  | nil => simp [alLookup, alLookupG]
  | cons hd tl ih =>
      obtain ⟨k1, b1⟩ := hd
      simp only [List.map_cons, List.nodup_cons] at hnd
      simp only [List.foldl_cons]
      rw [ih _ hnd.2]
      by_cases hck : k1 = comp
      · subst hck
        have htl : alLookup k1 tl = none :=
          alLookupG_eq_none_of_not_mem k1 tl hnd.1
        have hhd : alLookup k1 ((k1, b1) :: tl) = some b1 := by
          simp [alLookup, alLookupG]
        simp only [htl, hhd]
        cases hdc : alLookup k1 dc with
        | none => simp only [hdc]
        | some dv =>
            simp only [hdc]
            show alLookupG k1 (alInsertG k1 (b1 - dv) acc) = some (b1 - dv)
            rw [alLookupG_insert, if_pos rfl]
      · have hhd : alLookup comp ((k1, b1) :: tl) = alLookup comp tl := by
          simp [alLookup, alLookupG, hck]
        have hacc :
            alLookup comp
                (match alLookup k1 dc with
                 | some d => alInsert k1 (b1 - d) acc
                 | none => acc)
              = alLookup comp acc := by
          cases alLookup k1 dc with
          | none => rfl
          | some d =>
              show alLookupG comp (alInsertG k1 (b1 - d) acc)
                = alLookupG comp acc
              rw [alLookupG_insert, if_neg (fun h => hck h.symm)]
        rw [hhd]
        cases htl2 : alLookup comp tl with
        | none => simp only [htl2]; exact hacc
        | some bv =>
            simp only [htl2]
            cases hdc2 : alLookup comp dc with
            | none => simp only [hdc2]; exact hacc
            | some dv => simp only [hdc2]

theorem savOf_lookup (dc bc : AL) (comp : String)
    (hnd : (bc.map Prod.fst).Nodup) :
    alLookup comp (savOf dc bc)
      = match alLookup comp bc, alLookup comp dc with
        | some bv, some dv => some (bv - dv)
        | _, _ => none := by
  unfold savOf
  rw [savOf_fold_lookup dc bc [] comp hnd]
  cases alLookup comp bc <;> cases alLookup comp dc <;>
    simp [alLookup, alLookupG]

/-- C3: for a booked slot with consumption `delta >= 0` and a dynamic
price entry, `dynamic_cost` maps each dynamic component with nonzero
price to `delta * price`, `baseline_cost` does the same for baseline
components, and `savings` contains exactly the components present in
both cost maps with `savings = baseline_cost - dynamic_cost`; a
component present only in baseline, or with a zero dynamic price,
contributes to neither `dynamic_cost` nor `savings`.  The last conjunct
checks the concrete spec example (dynamic `{electricity: 0.20}`,
baseline `{electricity: 0.25, grid: 0.10}`, consumption 2.0 kWh). -/
theorem component_savings_intersection (delta : ℚ) (dyn base : AL)
    (hdelta : 0 ≤ delta) (hd : (dyn.map Prod.fst).Nodup)
    (hb : (base.map Prod.fst).Nodup) :
    (∀ comp, alLookup comp (dynCostOf delta dyn)
        = match alLookup comp dyn with
          | some p => if p ≠ 0 then some (delta * p) else none
          | none => none)
    ∧ (∀ comp, alLookup comp (dynCostOf delta base)
        = match alLookup comp base with
          | some p => if p ≠ 0 then some (delta * p) else none
          | none => none)
    ∧ (∀ comp, alLookup comp (savOf (dynCostOf delta dyn) (dynCostOf delta base))
        = match alLookup comp (dynCostOf delta base),
              alLookup comp (dynCostOf delta dyn) with
          | some bv, some dv => some (bv - dv)
          | _, _ => none)
    ∧ (∀ comp, (alLookup comp dyn = none ∨ alLookup comp dyn = some 0) →
        alLookup comp (dynCostOf delta dyn) = none
          ∧ alLookup comp (savOf (dynCostOf delta dyn) (dynCostOf delta base))
              = none)
    ∧ (∀ (ps : List (ℚ × PriceEntry)) (pts : List (ℚ × ℚ)) (c ks ke : ℚ)
          (dyn2 : AL) (base2 : AL) (api : Option ℚ),
        kwhAt pts c = some ks → kwhAt pts (c + 900) = some ke → ks ≤ ke →
        alLookupG c ps = some ⟨dyn2, some base2, api⟩ → dyn2 ≠ [] →
        (bookOne ps pts c).dyn = dynCostOf (ke - ks) dyn2
          ∧ (bookOne ps pts c).base = dynCostOf (ke - ks) base2
          ∧ (bookOne ps pts c).sav
              = savOf (dynCostOf (ke - ks) dyn2) (dynCostOf (ke - ks) base2))
    ∧ (dynCostOf 2 [("electricity", 1/5)] = [("electricity", 2/5)]
        ∧ dynCostOf 2 [("electricity", 1/4), ("grid", 1/10)]
            = [("electricity", 1/2), ("grid", 1/5)]
        ∧ savOf (dynCostOf 2 [("electricity", 1/5)])
            (dynCostOf 2 [("electricity", 1/4), ("grid", 1/10)])
            = [("electricity", 1/10)]) := by
  refine ⟨fun comp => dynCostOf_lookup delta dyn comp hd,
    fun comp => dynCostOf_lookup delta base comp hb,
    fun comp => savOf_lookup _ _ comp (dynCostOf_keys_nodup delta base),
    ?_, ?_, ?_⟩
  · intro comp hz
    have h1 : alLookup comp (dynCostOf delta dyn) = none := by
      rw [dynCostOf_lookup delta dyn comp hd]
      rcases hz with hz | hz <;> simp [hz]
    refine ⟨h1, ?_⟩
    rw [savOf_lookup _ _ comp (dynCostOf_keys_nodup delta base), h1]
    cases alLookup comp (dynCostOf delta base) <;> rfl
  · intro ps pts c ks ke dyn2 base2 api hks hke hle hp hne
    unfold bookOne
    simp only [hks, hke, hp]
    rw [if_neg (show ¬ke - ks < 0 by simp only [not_lt]; linarith)]
    rw [if_neg (by simpa [List.isEmpty_iff] using hne)]
    exact ⟨rfl, rfl, rfl⟩
  · refine ⟨?_, ?_, ?_⟩ <;> with_unfolding_all decide

/-- Witness for C3: the spec's concrete example evaluated through the
claim theorem. -/
theorem component_savings_intersection_witness :
    dynCostOf 2 [("electricity", 1/5)] = [("electricity", 2/5)]
    ∧ dynCostOf 2 [("electricity", 1/4), ("grid", 1/10)]
        = [("electricity", 1/2), ("grid", 1/5)]
    ∧ savOf (dynCostOf 2 [("electricity", 1/5)])
        (dynCostOf 2 [("electricity", 1/4), ("grid", 1/10)])
        = [("electricity", 1/10)] :=
  (component_savings_intersection 2 [("electricity", 1/5)]
    [("electricity", 1/4), ("grid", 1/10)] (by with_unfolding_all decide)
    (by with_unfolding_all decide) (by with_unfolding_all decide)).2.2.2.2.2

/-! ### The booking loop: structural lemmas -/

theorem loopSteps_zero (endSlot c : ℚ) (h : ¬c < endSlot) :
    loopSteps endSlot c = 0 := by
  unfold loopSteps
  have h1 : (endSlot - c) / 900 ≤ 0 := by
    apply div_nonpos_of_nonpos_of_nonneg <;> linarith
  have h2 : (⌈(endSlot - c) / 900⌉ : ℤ) ≤ 0 := by
    rw [Int.ceil_le]
    exact_mod_cast h1
  omega

theorem loopSteps_succ (endSlot c : ℚ) (h : c < endSlot) :
    loopSteps endSlot c = loopSteps endSlot (c + 900) + 1 := by
  unfold loopSteps
  have h0 : (0 : ℚ) < (endSlot - c) / 900 :=
    div_pos (by linarith) (by norm_num)
  have h1 : 1 ≤ (⌈(endSlot - c) / 900⌉ : ℤ) := Int.ceil_pos.mpr h0
  have h2 : (endSlot - (c + 900)) / 900 = (endSlot - c) / 900 - 1 := by ring
  rw [h2, Int.ceil_sub_one]
  omega

/-- The while-loop equation of `finalize_due_slots` (lines 386-435):
`finalizeLoop` satisfies the loop's defining recurrence verbatim. -/
theorem finalizeLoop_eq (ps : List (ℚ × PriceEntry)) (pts : List (ℚ × ℚ))
    (cutoff endSlot c : ℚ) :
    finalizeLoop ps pts cutoff endSlot c
      = if c < endSlot then
          if cutoff < c + 900 then []
          else bookOne ps pts c :: finalizeLoop ps pts cutoff endSlot (c + 900)
        else [] := by
  unfold finalizeLoop
  by_cases h : c < endSlot
  · rw [loopSteps_succ endSlot c h]
    show (if c < endSlot then
        if cutoff < c + 900 then []
        else bookOne ps pts c ::
          finalizeLoopN ps pts cutoff endSlot (loopSteps endSlot (c + 900)) (c + 900)
      else []) = _
    rfl
  · rw [loopSteps_zero endSlot c h]
    show ([] : List BookedSlot) = _
    rw [if_neg h]

theorem bookOne_start (ps : List (ℚ × PriceEntry)) (pts : List (ℚ × ℚ))
    (c : ℚ) : (bookOne ps pts c).start = c := by
  unfold bookOne
  cases kwhAt pts c with
  | none => rfl
  | some ks =>
      cases kwhAt pts (c + 900) with
      | none => rfl
      | some ke =>
          by_cases hd : ke - ks < 0
          · simp only [if_pos hd]
          · simp only [if_neg hd]
            cases alLookupG c ps with
            | none => rfl
            | some e =>
                by_cases he : e.dyn.isEmpty
                · simp only [if_pos he]
                · simp only [if_neg he]

theorem gridList_zero (a : ℚ) : gridList a 0 = [] := rfl

theorem gridList_succ (a : ℚ) (n : ℕ) :
    gridList a (n + 1) = a :: gridList (a + 900) n := by
  unfold gridList
  rw [List.range_succ_eq_map]
  simp only [List.map_cons, List.map_map, Nat.cast_zero, mul_zero, add_zero,
    List.cons.injEq, true_and]
  apply List.map_congr_left
  intro i hi
  simp only [Function.comp_apply]
  push_cast
  ring

theorem gridList_append (a : ℚ) (m n : ℕ) :
    gridList a (m + n) = gridList a m ++ gridList (a + 900 * m) n := by
  unfold gridList
  rw [List.range_add, List.map_append, List.map_map]
  congr 1
  apply List.map_congr_left
  intro i hi
  simp only [Function.comp_apply]
  push_cast
  ring

theorem gridList_getLast (a : ℚ) (n : ℕ) :
    (gridList a (n + 1)).getLast? = some (a + 900 * n) := by
  induction n generalizing a with
  | zero =>
      have h1 : gridList a 1 = [a] := by
        unfold gridList
        rw [show (1 : ℕ) = 0 + 1 from rfl, List.range_succ_eq_map]
        simp
      rw [h1]
      simp
  | succ m ih =>
      have h1 : gridList a (m + 1 + 1) = a :: gridList (a + 900) (m + 1) :=
        gridList_succ a (m + 1)
      have h2 : gridList (a + 900) (m + 1)
          = (a + 900) :: gridList (a + 900 + 900) m := gridList_succ _ m
      rw [h1, h2, List.getLast?_cons_cons, ← h2, ih (a + 900)]
      congr 1
      push_cast
      ring

theorem finalizeLoop_aligned (ps : List (ℚ × PriceEntry))
    (pts : List (ℚ × ℚ)) (cutoff e : ℚ) (k : ℕ) :
    ∀ c : ℚ, e = c + 900 * k → e ≤ cutoff →
      finalizeLoop ps pts cutoff e c
        = (gridList c k).map (bookOne ps pts) := by
  induction k with
  | zero =>
      intro c he hcut
      have hnc : ¬c < e := by
        rw [he]
        push_cast
        simp
      rw [finalizeLoop_eq, if_neg hnc, gridList_zero]
      rfl
  | succ n ih =>
      intro c he hcut
      have hn0 : (0 : ℚ) ≤ (n : ℚ) := Nat.cast_nonneg n
      have he2 : e = c + 900 * ((n : ℚ) + 1) := by
        rw [he]
        push_cast
        ring
      have hlt : c < e := by rw [he2]; linarith
      have hbr : ¬cutoff < c + 900 := by
        have hce : c + 900 ≤ e := by rw [he2]; linarith
        linarith
      have hc900 : e = (c + 900) + 900 * n := by rw [he2]; push_cast; ring
      rw [finalizeLoop_eq, if_pos hlt, if_neg hbr, ih (c + 900) hc900 hcut,
        gridList_succ, List.map_cons]

theorem loopSteps_pos (e c : ℚ) (h : c < e) : 1 ≤ loopSteps e c := by
  rw [loopSteps_succ e c h]
  omega

theorem finalizeLoop_spec (ps : List (ℚ × PriceEntry)) (pts : List (ℚ × ℚ))
    (cutoff e : ℚ) :
    ∀ (N : ℕ) (c : ℚ), loopSteps e c ≤ N →
      ∃ n : ℕ,
        finalizeLoop ps pts cutoff e c = (gridList c n).map (bookOne ps pts)
        ∧ (∀ i : ℕ, i < n →
            c + 900 * i < e ∧ c + 900 * i + 900 ≤ cutoff)
        ∧ ¬(c + 900 * n < e ∧ c + 900 * n + 900 ≤ cutoff) := by
  intro N
  induction N with
  | zero =>
      intro c hN
      have hnc : ¬c < e := by
        intro hlt
        have := loopSteps_pos e c hlt
        omega
      refine ⟨0, ?_, fun i hi => absurd hi (Nat.not_lt_zero i), ?_⟩
      · rw [finalizeLoop_eq, if_neg hnc, gridList_zero]
        rfl
      · rintro ⟨h1, -⟩
        apply hnc
        have : c + 900 * ((0 : ℕ) : ℚ) = c := by push_cast; ring
        rw [this] at h1
        exact h1
  | succ N ihN =>
      intro c hN
      by_cases hlt : c < e
      · by_cases hbr : cutoff < c + 900
        · refine ⟨0, ?_, fun i hi => absurd hi (Nat.not_lt_zero i), ?_⟩
          · rw [finalizeLoop_eq, if_pos hlt, if_pos hbr, gridList_zero]
            rfl
          · rintro ⟨-, h2⟩
            have hc : c + 900 * ((0 : ℕ) : ℚ) + 900 = c + 900 := by
              push_cast; ring
            rw [hc] at h2
            linarith
        · have hstep : loopSteps e (c + 900) ≤ N := by
            have := loopSteps_succ e c hlt
            omega
          obtain ⟨n, hL, hall, hstop⟩ := ihN (c + 900) hstep
          refine ⟨n + 1, ?_, ?_, ?_⟩
          · rw [finalizeLoop_eq, if_pos hlt, if_neg hbr, hL, gridList_succ,
              List.map_cons]
          · intro i hi
            cases i with
            | zero =>
                constructor
                · have hc : c + 900 * ((0 : ℕ) : ℚ) = c := by push_cast; ring
                  rw [hc]
                  exact hlt
                · have hc : c + 900 * ((0 : ℕ) : ℚ) + 900 = c + 900 := by
                    push_cast; ring
                  rw [hc]
                  linarith
            | succ j =>
                have hj : j < n := by omega
                obtain ⟨ha, hb⟩ := hall j hj
                constructor
                · have hc : c + 900 * ((j + 1 : ℕ) : ℚ)
                      = (c + 900) + 900 * (j : ℚ) := by push_cast; ring
                  rw [hc]
                  exact ha
                · have hc : c + 900 * ((j + 1 : ℕ) : ℚ) + 900
                      = (c + 900) + 900 * (j : ℚ) + 900 := by push_cast; ring
                  rw [hc]
                  exact hb
          · rintro ⟨h1, h2⟩
            apply hstop
            constructor
            · have hc : c + 900 * ((n + 1 : ℕ) : ℚ)
                  = (c + 900) + 900 * (n : ℚ) := by push_cast; ring
              rw [hc] at h1
              exact h1
            · have hc : c + 900 * ((n + 1 : ℕ) : ℚ) + 900
                  = (c + 900) + 900 * (n : ℚ) + 900 := by push_cast; ring
              rw [hc] at h2
              exact h2
      · refine ⟨0, ?_, fun i hi => absurd hi (Nat.not_lt_zero i), ?_⟩
        · rw [finalizeLoop_eq, if_neg hlt, gridList_zero]
          rfl
        · rintro ⟨h1, -⟩
          apply hlt
          have hc : c + 900 * ((0 : ℕ) : ℚ) = c := by push_cast; ring
          rw [hc] at h1
          exact h1

theorem finalizeLoop_walk (ps : List (ℚ × PriceEntry)) (pts : List (ℚ × ℚ))
    (cutoff e c : ℚ) :
    ∃ n : ℕ,
      finalizeLoop ps pts cutoff e c = (gridList c n).map (bookOne ps pts)
      ∧ (∀ i : ℕ, i < n → c + 900 * i < e ∧ c + 900 * i + 900 ≤ cutoff)
      ∧ ¬(c + 900 * n < e ∧ c + 900 * n + 900 ≤ cutoff) :=
  finalizeLoop_spec ps pts cutoff e (loopSteps e c) c le_rfl

theorem sortInsert_length (x : ℚ × ℚ) (l : List (ℚ × ℚ)) :
    (sortInsert x l).length = l.length + 1 := by
  induction l with
  | nil => rfl
  | cons hd tl ih =>
      unfold sortInsert
      split
      · simp
      · simp [ih]

theorem sortSamples_length (l : List (ℚ × ℚ)) :
    (sortSamples l).length = l.length := by
  induction l with
  | nil => rfl
  | cons hd tl ih =>
      unfold sortSamples
      rw [sortInsert_length, ih, List.length_cons]

theorem gridList_length (a : ℚ) (n : ℕ) : (gridList a n).length = n := by
  unfold gridList
  rw [List.length_map, List.length_range]

theorem gridList_pairwise (a : ℚ) (n : ℕ) :
    (gridList a n).Pairwise (· < ·) := by
  unfold gridList
  rw [List.pairwise_map]
  apply List.Pairwise.imp ?_ (List.pairwise_lt_range n)
  intro i j hij
  have : (i : ℚ) < (j : ℚ) := by exact_mod_cast hij
  linarith

theorem mem_gridList (x a : ℚ) (n : ℕ) :
    x ∈ gridList a n ↔ ∃ i : ℕ, i < n ∧ x = a + 900 * i := by
  unfold gridList
  simp only [List.mem_map, List.mem_range]
  constructor
  · rintro ⟨i, hi, rfl⟩
    exact ⟨i, hi, rfl⟩
  · rintro ⟨i, hi, rfl⟩
    exact ⟨i, hi, rfl⟩

theorem slotStart_eq (t : ℚ) : slotStart t = 900 * (⌊t / 900⌋ : ℤ) := rfl

theorem slotStart_le (t : ℚ) : slotStart t ≤ t := by
  rw [slotStart_eq]
  have h1 : ((⌊t / 900⌋ : ℤ) : ℚ) ≤ t / 900 := Int.floor_le _
  have h2 : (900 : ℚ) * ((⌊t / 900⌋ : ℤ) : ℚ) ≤ 900 * (t / 900) := by linarith
  have h3 : (900 : ℚ) * (t / 900) = t := by field_simp
  linarith

theorem map_start_bookOne (ps : List (ℚ × PriceEntry)) (pts : List (ℚ × ℚ))
    (l : List ℚ) :
    (l.map (bookOne ps pts)).map BookedSlot.start = l := by
  rw [List.map_map]
  have h : ∀ x ∈ l, (BookedSlot.start ∘ bookOne ps pts) x = id x :=
    fun x _ => bookOne_start ps pts x
  rw [List.map_congr_left h, List.map_id]

/-! ### C1: the monotonic booking cursor -/

/-- C1: starting from a state whose booked slot starts form the
contiguous aligned 15-minute grid `gridList start0 m` (with `start0`
the slot-aligned start of the earliest sample when nothing is booked),
one `finalize_due_slots(now)` call extends it to exactly the contiguous
grid up to `floor15(now - 1min)`, half-open, with no gaps and no
duplicates (the grid is strictly increasing), each loop iteration
appending exactly one `BookedSlot` and advancing the cursor by 900
seconds regardless of outcome status; the returned count is the number
of grid points added.  Hypotheses: at least two samples, the clock
moved forward past the existing grid, and the 400-day booked-retention
cutoff does not reach back into the grid. -/
theorem monotonic_cursor_grid (s : TariffSaverStore)
    (now realNow start0 : ℚ) (m : ℕ) (a : ℤ)
    (h2 : 2 ≤ s.samples.length)
    (hb : s.booked.map BookedSlot.start = gridList start0 m)
    (hstart : m = 0 → firstSampleSlot s = some start0)
    (halign : start0 = 900 * (a : ℚ))
    (hfwd : start0 + 900 * m ≤ slotStart (now - 60))
    (htrim : realNow - 34560000 ≤ start0) :
    ∃ M : ℕ, m ≤ M
      ∧ start0 + 900 * M = slotStart (now - 60)
      ∧ (finalize now realNow s).1.booked.map BookedSlot.start
          = gridList start0 M
      ∧ (finalize now realNow s).2 = M - m
      ∧ (gridList start0 M).Pairwise (· < ·) := by
  have hF : slotStart (now - 60) = 900 * ((⌊(now - 60) / 900⌋ : ℤ) : ℚ) := rfl
  have hle : (a : ℚ) + (m : ℚ) ≤ ((⌊(now - 60) / 900⌋ : ℤ) : ℚ) := by
    rw [halign, hF] at hfwd
    linarith
  have hleZ : a + (m : ℤ) ≤ ⌊(now - 60) / 900⌋ := by exact_mod_cast hle
  obtain ⟨k, hk⟩ : ∃ k : ℕ, ⌊(now - 60) / 900⌋ = a + m + k :=
    ⟨(⌊(now - 60) / 900⌋ - a - m).toNat, by omega⟩
  have hek : slotStart (now - 60) = (start0 + 900 * m) + 900 * k := by
    rw [hF, halign, hk]
    push_cast
    ring
  have hcut : slotStart (now - 60) ≤ now - 60 := slotStart_le _
  rcases hpts : sortSamples (s.samples.map fun x => (x.ts, x.kwh))
    with _ | ⟨p0, rest⟩
  · exfalso
    have hlen := sortSamples_length (s.samples.map fun x => (x.ts, x.kwh))
    rw [hpts] at hlen
    simp only [List.length_nil, List.length_map] at hlen
    omega
  · have hnot2 : ¬s.samples.length < 2 := not_lt.mpr h2
    have hfin : finalize now realNow s
        = finalizeFinish realNow s
            (finalizeLoop s.priceSlots (p0 :: rest) (now - 60)
              (slotStart (now - 60)) (finalizeCursor0 s.booked p0)) := by
      unfold finalize
      rw [if_neg hnot2, hpts]
    have hc0 : finalizeCursor0 s.booked p0 = start0 + 900 * m := by
      cases m with
      | zero =>
          have hbe : s.booked = [] := by
            have hb0 := hb
            rw [gridList_zero] at hb0
            exact List.map_eq_nil_iff.mp hb0
          have hfs := hstart rfl
          unfold firstSampleSlot at hfs
          rw [hpts] at hfs
          have hss : slotStart p0.1 = start0 := Option.some.inj hfs
          unfold finalizeCursor0
          rw [hbe]
          simp [hss]
      | succ j =>
          have hlast : s.booked.getLast?.map BookedSlot.start
              = some (start0 + 900 * j) := by
            rw [← List.getLast?_map, hb, gridList_getLast]
          unfold finalizeCursor0
          rw [hlast]
          show start0 + 900 * (j : ℚ) + 900 = start0 + 900 * ((j + 1 : ℕ) : ℚ)
          push_cast
          ring
    have hloop : finalizeLoop s.priceSlots (p0 :: rest) (now - 60)
        (slotStart (now - 60)) (finalizeCursor0 s.booked p0)
        = (gridList (start0 + 900 * m) k).map
            (bookOne s.priceSlots (p0 :: rest)) := by
      rw [hc0]
      exact finalizeLoop_aligned s.priceSlots (p0 :: rest) (now - 60)
        (slotStart (now - 60)) k (start0 + 900 * m) hek hcut
    refine ⟨m + k, Nat.le_add_right m k, ?_, ?_, ?_, gridList_pairwise _ _⟩
    · rw [hek]
      push_cast
      ring
    · rw [hfin, hloop]
      cases k with
      | zero =>
          rw [gridList_zero, List.map_nil]
          show s.booked.map BookedSlot.start = gridList start0 (m + 0)
          rw [hb, Nat.add_zero]
      | succ j =>
          have hne : ¬((gridList (start0 + 900 * (m : ℚ)) (j + 1)).map
              (bookOne s.priceSlots (p0 :: rest))).length = 0 := by
            rw [List.length_map, gridList_length]
            omega
          unfold finalizeFinish
          rw [if_neg hne]
          show (trimBooked realNow
              (s.booked ++ (gridList (start0 + 900 * (m : ℚ)) (j + 1)).map
                (bookOne s.priceSlots (p0 :: rest)))).map BookedSlot.start
            = gridList start0 (m + (j + 1))
          have hkeep : ∀ b ∈ s.booked ++ (gridList (start0 + 900 * (m : ℚ))
              (j + 1)).map (bookOne s.priceSlots (p0 :: rest)),
              decide (realNow - 34560000 ≤ b.start) = true := by
            intro b hbmem
            rw [decide_eq_true_eq]
            rcases List.mem_append.mp hbmem with hmem | hmem
            · have hs : b.start ∈ s.booked.map BookedSlot.start :=
                List.mem_map_of_mem BookedSlot.start hmem
              rw [hb, mem_gridList] at hs
              obtain ⟨i, -, hi⟩ := hs
              have hge : (0 : ℚ) ≤ 900 * i := by positivity
              rw [hi]
              linarith
            · obtain ⟨x, hx, rfl⟩ := List.mem_map.mp hmem
              rw [mem_gridList] at hx
              obtain ⟨i, -, rfl⟩ := hx
              rw [bookOne_start]
              have hge : (0 : ℚ) ≤ 900 * i := by positivity
              have hgm : (0 : ℚ) ≤ 900 * m := by positivity
              linarith
          unfold trimBooked
          rw [List.filter_eq_self.mpr hkeep, List.map_append, hb,
            map_start_bookOne, ← gridList_append]
    · rw [hfin, hloop]
      cases k with
      | zero =>
          rw [gridList_zero, List.map_nil]
          show 0 = m + 0 - m
          omega
      | succ j =>
          have hne : ¬((gridList (start0 + 900 * (m : ℚ)) (j + 1)).map
              (bookOne s.priceSlots (p0 :: rest))).length = 0 := by
            rw [List.length_map, gridList_length]
            omega
          unfold finalizeFinish
          rw [if_neg hne]
          show ((gridList (start0 + 900 * (m : ℚ)) (j + 1)).map
              (bookOne s.priceSlots (p0 :: rest))).length = m + (j + 1) - m
          rw [List.length_map, gridList_length]
          omega

/-- Witness for C1: on `c5Store` (three samples, nothing booked) at
`now = 1020`, finalization books exactly the one-slot grid `[0]`. -/
theorem monotonic_cursor_grid_witness :
    ∃ M : ℕ, 0 ≤ M
      ∧ (0 : ℚ) + 900 * M = slotStart (1020 - 60)
      ∧ (finalize 1020 1020 c5Store).1.booked.map BookedSlot.start
          = gridList 0 M
      ∧ (finalize 1020 1020 c5Store).2 = M - 0
      ∧ (gridList 0 M).Pairwise (· < ·) :=
  monotonic_cursor_grid c5Store 1020 1020 0 0 0
    (by with_unfolding_all decide) (by with_unfolding_all decide)
    (fun _ => by with_unfolding_all decide) (by with_unfolding_all decide)
    (by with_unfolding_all decide) (by with_unfolding_all decide)

/-! ### C2: delta correctness -/

/-- The spec's concrete delta example: cumulative readings 100.0 kWh at
minute 0, 100.25 at minute 5, 100.9 at minute 20, nothing booked, no
prices. -/
def c2Store : TariffSaverStore :=
  ⟨[], [⟨0, 100⟩, ⟨300, 401/4⟩, ⟨1200, 909/10⟩], [], none, false⟩

/-- C2: every slot whose two boundary lookups succeed with a
non-decreasing meter books consumption
`kwh_at(cursor+15min) - kwh_at(cursor)` — the last sample at-or-before
each boundary, no interpolation; concretely, with samples
`(0,100.0), (300,100.25), (1200,100.9)` the boundary lookups give
`100.0` at second 0 and `100.25` at second 900 (minute 5 precedes the
boundary, minute 20 does not), and finalizing at `now = 1020` books the
single slot `[0,900)` with consumption `0.25` kWh. -/
theorem delta_correctness :
    (∀ (ps : List (ℚ × PriceEntry)) (pts : List (ℚ × ℚ)) (c ks ke : ℚ),
      kwhAt pts c = some ks → kwhAt pts (c + 900) = some ke → ks ≤ ke →
      (bookOne ps pts c).kwh = ke - ks)
    ∧ kwhAt [(0, 100), (300, 401/4), (1200, 909/10)] 0 = some 100
    ∧ kwhAt [(0, 100), (300, 401/4), (1200, 909/10)] 900 = some (401/4)
    ∧ finalize 1020 1020 c2Store
        = ({ c2Store with
             booked := [⟨0, 1/4, "unpriced", [], [], []⟩]
             dirty := true }, 1) := by
  refine ⟨?_, by with_unfolding_all decide, by with_unfolding_all decide,
    by with_unfolding_all decide⟩
  intro ps pts c ks ke hks hke hle
  unfold bookOne
  simp only [hks, hke]
  rw [if_neg (show ¬ke - ks < 0 by simp only [not_lt]; linarith)]
  cases alLookupG c ps with
  | none => rfl
  | some e =>
      by_cases he : e.dyn.isEmpty
      · simp only [he, if_pos]
      · simp only [he, if_neg, Bool.false_eq_true, if_false]

/-- Witness for C2 at the concrete sample list. -/
theorem delta_correctness_witness :
    (bookOne [] [(0, 100), (300, 401/4), (1200, 909/10)] 0).kwh
      = 401/4 - 100 :=
  delta_correctness.1 [] [(0, 100), (300, 401/4), (1200, 909/10)] 0 100
    (401/4) (by with_unfolding_all decide) (by with_unfolding_all decide)
    (by with_unfolding_all decide)

/-! ### C4: at-most-once booking, no revision -/

theorem gridList_one (a : ℚ) : gridList a 1 = [a] := by
  unfold gridList
  rw [show (1 : ℕ) = 0 + 1 from rfl, List.range_succ_eq_map]
  simp

theorem slotStart_gt (t : ℚ) : t - 900 < slotStart t := by
  rw [slotStart_eq]
  have h1 : t / 900 < (⌊t / 900⌋ : ℤ) + 1 := Int.lt_floor_add_one _
  have h2 : (900 : ℚ) * (t / 900) = t := by field_simp
  nlinarith [h1, h2]

theorem getLast?_filter_concat {α : Type} (p : α → Bool) (l : List α)
    (x : α) (hx : p x = true) :
    ((l ++ [x]).filter p).getLast? = some x := by
  rw [List.filter_append]
  have h1 : [x].filter p = [x] := by simp [hx]
  rw [h1, List.getLast?_concat]

theorem finalize_booked_shape (now realNow : ℚ) (s : TariffSaverStore) :
    (finalize now realNow s).1.booked = s.booked
      ∨ ∃ newB, (finalize now realNow s).1.booked
          = trimBooked realNow (s.booked ++ newB) := by
  unfold finalize
  split
  · exact Or.inl rfl
  · split
    · exact Or.inl rfl
    · unfold finalizeFinish
      split
      · exact Or.inl rfl
      · exact Or.inr ⟨_, rfl⟩

theorem finalize_eq_guard (now r : ℚ) (t : TariffSaverStore)
    (hg : t.samples.length < 2) : finalize now r t = (t, 0) := by
  unfold finalize
  rw [if_pos hg]

theorem finalize_eq_nil (now r : ℚ) (t : TariffSaverStore)
    (hg : ¬t.samples.length < 2)
    (hpts : sortSamples (t.samples.map fun x => (x.ts, x.kwh)) = []) :
    finalize now r t = (t, 0) := by
  unfold finalize
  rw [if_neg hg, hpts]

theorem finalize_eq_cons (now r : ℚ) (t : TariffSaverStore)
    (p0 : ℚ × ℚ) (rest : List (ℚ × ℚ))
    (hg : ¬t.samples.length < 2)
    (hpts : sortSamples (t.samples.map fun x => (x.ts, x.kwh)) = p0 :: rest) :
    finalize now r t
      = finalizeFinish r t
          (finalizeLoop t.priceSlots (p0 :: rest) (now - 60)
            (slotStart (now - 60)) (finalizeCursor0 t.booked p0)) := by
  unfold finalize
  rw [if_neg hg, hpts]

theorem finalizeCursor0_of_getLast (booked : List BookedSlot) (p0 : ℚ × ℚ)
    (b : BookedSlot) (h : booked.getLast? = some b) :
    finalizeCursor0 booked p0 = b.start + 900 := by
  unfold finalizeCursor0
  rw [h]
  rfl

/-- C4: re-running `finalize_due_slots` never revises a previously
booked slot — every existing record (within the 400-day retention
window) survives a later call byte-for-byte, as a prefix of the new
list — and calling `finalize_due_slots` twice in a row with the same
`now` and no new samples or prices returns 0 newly-booked slots on the
second call. -/
theorem at_most_once_booking (s : TariffSaverStore)
    (now realNow realNow2 : ℚ)
    (hkeep : ∀ b ∈ s.booked, realNow - 34560000 ≤ b.start)
    (hrn : realNow - 34560000 ≤ now - 1860) :
    (finalize now realNow s).1.booked.take s.booked.length = s.booked
    ∧ (finalize now realNow2 ((finalize now realNow s).1)).2 = 0 := by
  constructor
  · rcases finalize_booked_shape now realNow s with hsh | ⟨newB, hsh⟩
    · rw [hsh, List.take_length]
    · rw [hsh]
      unfold trimBooked
      rw [List.filter_append,
        List.filter_eq_self.mpr
          (fun b hbm => by rw [decide_eq_true_eq]; exact hkeep b hbm),
        List.take_left]
  · by_cases hg : s.samples.length < 2
    · rw [finalize_eq_guard now realNow s hg]
      rw [show ((s, 0) : TariffSaverStore × ℕ).1 = s from rfl]
      rw [finalize_eq_guard now realNow2 s hg]
    · rcases hpts : sortSamples (s.samples.map fun x => (x.ts, x.kwh))
        with _ | ⟨p0, rest⟩
      · rw [finalize_eq_nil now realNow s hg hpts]
        rw [show ((s, 0) : TariffSaverStore × ℕ).1 = s from rfl]
        rw [finalize_eq_nil now realNow2 s hg hpts]
      · obtain ⟨n, hL, hall, hstop⟩ := finalizeLoop_walk s.priceSlots
          (p0 :: rest) (now - 60) (slotStart (now - 60))
          (finalizeCursor0 s.booked p0)
        cases n with
        | zero =>
            have h1 : finalize now realNow s = (s, 0) := by
              rw [finalize_eq_cons now realNow s p0 rest hg hpts, hL,
                gridList_zero, List.map_nil]
              rfl
            rw [h1]
            rw [show ((s, 0) : TariffSaverStore × ℕ).1 = s from rfl]
            rw [finalize_eq_cons now realNow2 s p0 rest hg hpts, hL,
              gridList_zero, List.map_nil]
            rfl
        | succ j =>
            have hne : ¬((gridList (finalizeCursor0 s.booked p0) (j + 1)).map
                (bookOne s.priceSlots (p0 :: rest))).length = 0 := by
              rw [List.length_map, gridList_length]
              omega
            have hfin1 : (finalize now realNow s).1
                = { s with
                    booked := trimBooked realNow (s.booked ++
                      (gridList (finalizeCursor0 s.booked p0) (j + 1)).map
                        (bookOne s.priceSlots (p0 :: rest)))
                    dirty := true } := by
              rw [finalize_eq_cons now realNow s p0 rest hg hpts, hL]
              unfold finalizeFinish
              rw [if_neg hne]
            have hlb : now - 1860
                < finalizeCursor0 s.booked p0 + 900 * (j : ℚ) := by
              rcases not_and_or.mp hstop with h | h
              · push_neg at h
                have hgt : (now - 60) - 900 < slotStart (now - 60) :=
                  slotStart_gt _
                have hcast : finalizeCursor0 s.booked p0
                    + 900 * ((j + 1 : ℕ) : ℚ)
                    = finalizeCursor0 s.booked p0 + 900 * (j : ℚ) + 900 := by
                  push_cast
                  ring
                rw [hcast] at h
                linarith
              · push_neg at h
                have hcast : finalizeCursor0 s.booked p0
                    + 900 * ((j + 1 : ℕ) : ℚ) + 900
                    = finalizeCursor0 s.booked p0 + 900 * (j : ℚ) + 1800 := by
                  push_cast
                  ring
                rw [hcast] at h
                linarith
            have hsplit : (gridList (finalizeCursor0 s.booked p0) (j + 1)).map
                (bookOne s.priceSlots (p0 :: rest))
                = ((gridList (finalizeCursor0 s.booked p0) j).map
                    (bookOne s.priceSlots (p0 :: rest)))
                  ++ [bookOne s.priceSlots (p0 :: rest)
                      (finalizeCursor0 s.booked p0 + 900 * (j : ℚ))] := by
              rw [gridList_append (finalizeCursor0 s.booked p0) j 1,
                gridList_one, List.map_append]
              rfl
            have hlastb : (finalize now realNow s).1.booked.getLast?
                = some (bookOne s.priceSlots (p0 :: rest)
                    (finalizeCursor0 s.booked p0 + 900 * (j : ℚ))) := by
              rw [hfin1]
              show (trimBooked realNow _).getLast? = _
              unfold trimBooked
              rw [hsplit, ← List.append_assoc]
              apply getLast?_filter_concat
              rw [decide_eq_true_eq, bookOne_start]
              linarith
            have hsam1 : (finalize now realNow s).1.samples = s.samples := by
              rw [hfin1]
            have hps1 : (finalize now realNow s).1.priceSlots
                = s.priceSlots := by
              rw [hfin1]
            have hg1 : ¬(finalize now realNow s).1.samples.length < 2 := by
              rw [hsam1]
              exact hg
            have hpts1 : sortSamples ((finalize now realNow s).1.samples.map
                fun x => (x.ts, x.kwh)) = p0 :: rest := by
              rw [hsam1]
              exact hpts
            have hc1 : finalizeCursor0 (finalize now realNow s).1.booked p0
                = finalizeCursor0 s.booked p0 + 900 * ((j : ℚ) + 1) := by
              rw [finalizeCursor0_of_getLast _ p0 _ hlastb, bookOne_start]
              ring
            have hstop2 : ¬(finalizeCursor0 s.booked p0 + 900 * ((j : ℚ) + 1)
                < slotStart (now - 60)
                ∧ finalizeCursor0 s.booked p0 + 900 * ((j : ℚ) + 1) + 900
                    ≤ now - 60) := by
              intro hcon
              apply hstop
              constructor
              · have hcast : finalizeCursor0 s.booked p0
                    + 900 * ((j + 1 : ℕ) : ℚ)
                    = finalizeCursor0 s.booked p0 + 900 * ((j : ℚ) + 1) := by
                  push_cast
                  ring
                rw [hcast]
                exact hcon.1
              · have hcast : finalizeCursor0 s.booked p0
                    + 900 * ((j + 1 : ℕ) : ℚ) + 900
                    = finalizeCursor0 s.booked p0 + 900 * ((j : ℚ) + 1)
                      + 900 := by
                  push_cast
                  ring
                rw [hcast]
                exact hcon.2
            have hloop2 : finalizeLoop s.priceSlots (p0 :: rest) (now - 60)
                (slotStart (now - 60))
                (finalizeCursor0 s.booked p0 + 900 * ((j : ℚ) + 1)) = [] := by
              rw [finalizeLoop_eq]
              by_cases hlt2 : finalizeCursor0 s.booked p0
                  + 900 * ((j : ℚ) + 1) < slotStart (now - 60)
              · have hB : ¬(finalizeCursor0 s.booked p0 + 900 * ((j : ℚ) + 1)
                    + 900 ≤ now - 60) := fun hB => hstop2 ⟨hlt2, hB⟩
                rw [if_pos hlt2, if_pos (not_le.mp hB)]
              · rw [if_neg hlt2]
            rw [finalize_eq_cons now realNow2 (finalize now realNow s).1 p0
              rest hg1 hpts1, hps1, hc1, hloop2]
            rfl

/-- Witness for C4 on `c5Store` (books one slot on the first call, zero
on the immediate second call with the same `now`). -/
theorem at_most_once_booking_witness :
    (finalize 1020 1020 c5Store).1.booked.take c5Store.booked.length
        = c5Store.booked
    ∧ (finalize 1020 1020 ((finalize 1020 1020 c5Store).1)).2 = 0 :=
  at_most_once_booking c5Store 1020 1020 1020
    (by intro b hb; cases hb) (by with_unfolding_all decide)

/-! ### C7: rollup boundary exactness and per-component sums -/

theorem alLookupD_alAdd (c k : String) (v : ℚ) (m : AL) :
    alLookupD c (alAdd k v m) 0
      = alLookupD c m 0 + (if c = k then v else 0) := by
  unfold alAdd
  unfold alLookupD alLookup alInsert
  rw [alLookupG_insert]
  by_cases h : c = k
  · rw [if_pos h, if_pos h]
    subst h
    simp [alLookupD, alLookup]
  · rw [if_neg h, if_neg h]
    simp

theorem alLookupD_bumpBucket (c : String) (vals : AL) :
    ∀ m : AL, (vals.map Prod.fst).Nodup →
      alLookupD c (bumpBucket m vals) 0
        = alLookupD c m 0 + alLookupD c vals 0 := by
  induction vals with
  | nil =>
      intro m _
      unfold bumpBucket
      simp [alLookupD, alLookup, alLookupG]
  | cons hd tl ih =>
      intro m hnd
      obtain ⟨k1, v1⟩ := hd
      simp only [List.map_cons, List.nodup_cons] at hnd
      unfold bumpBucket at ih ⊢
      simp only [List.foldl_cons]
      rw [ih (alAdd k1 v1 m) hnd.2, alLookupD_alAdd]
      by_cases h : c = k1
      · have htl : alLookup c tl = none := by
          subst h
          exact alLookupG_eq_none_of_not_mem c tl hnd.1
        have hhd : alLookupD c ((k1, v1) :: tl) 0 = v1 := by
          subst h
          simp [alLookupD, alLookup, alLookupG]
        have htl0 : alLookupD c tl 0 = 0 := by
          rw [alLookupD, htl]
          rfl
        rw [hhd, htl0, if_pos h]
        ring
      · have hhd : alLookupD c ((k1, v1) :: tl) 0 = alLookupD c tl 0 := by
          simp [alLookupD, alLookup, alLookupG, h, Ne.symm h]
      -- note: head key differs from c
        rw [hhd, if_neg h]
        ring

theorem sumBetween_fold (off sl el : ℚ) (c : String) (booked : List BookedSlot) :
    ∀ acc : Breakdown,
      (∀ b ∈ booked, (b.dyn.map Prod.fst).Nodup ∧ (b.base.map Prod.fst).Nodup
        ∧ (b.sav.map Prod.fst).Nodup) →
      alLookupD c
          (booked.foldl
            (fun out b =>
              if slotInRange off sl el b then
                ⟨bumpBucket out.dyn b.dyn, bumpBucket out.base b.base,
                  bumpBucket out.sav b.sav⟩
              else out)
            acc).dyn 0
        = alLookupD c acc.dyn 0
          + ((booked.filter (slotInRange off sl el)).map
              (fun b => alLookupD c b.dyn 0)).sum
      ∧ alLookupD c
          (booked.foldl
            (fun out b =>
              if slotInRange off sl el b then
                ⟨bumpBucket out.dyn b.dyn, bumpBucket out.base b.base,
                  bumpBucket out.sav b.sav⟩
              else out)
            acc).base 0
        = alLookupD c acc.base 0
          + ((booked.filter (slotInRange off sl el)).map
              (fun b => alLookupD c b.base 0)).sum
      ∧ alLookupD c
          (booked.foldl
            (fun out b =>
              if slotInRange off sl el b then
                ⟨bumpBucket out.dyn b.dyn, bumpBucket out.base b.base,
                  bumpBucket out.sav b.sav⟩
              else out)
            acc).sav 0
        = alLookupD c acc.sav 0
          + ((booked.filter (slotInRange off sl el)).map
              (fun b => alLookupD c b.sav 0)).sum := by
  induction booked with
  | nil =>
      intro acc _
      simp
  | cons b t ih =>
      intro acc hnd
      have hb := hnd b (List.mem_cons_self b t)
      have ht : ∀ x ∈ t, (x.dyn.map Prod.fst).Nodup
          ∧ (x.base.map Prod.fst).Nodup ∧ (x.sav.map Prod.fst).Nodup :=
        fun x hx => hnd x (List.mem_cons_of_mem b hx)
      simp only [List.foldl_cons]
      by_cases hr : slotInRange off sl el b
      · rw [if_pos hr]
        obtain ⟨ih1, ih2, ih3⟩ := ih
          ⟨bumpBucket acc.dyn b.dyn, bumpBucket acc.base b.base,
            bumpBucket acc.sav b.sav⟩ ht
        have hf : (b :: t).filter (slotInRange off sl el)
            = b :: t.filter (slotInRange off sl el) := by
          rw [List.filter_cons, if_pos hr]
        rw [hf]
        refine ⟨?_, ?_, ?_⟩
        · rw [ih1]
          show alLookupD c (bumpBucket acc.dyn b.dyn) 0 + _ = _
          rw [alLookupD_bumpBucket c b.dyn acc.dyn hb.1, List.map_cons,
            List.sum_cons]
          ring
        · rw [ih2]
          show alLookupD c (bumpBucket acc.base b.base) 0 + _ = _
          rw [alLookupD_bumpBucket c b.base acc.base hb.2.1, List.map_cons,
            List.sum_cons]
          ring
        · rw [ih3]
          show alLookupD c (bumpBucket acc.sav b.sav) 0 + _ = _
          rw [alLookupD_bumpBucket c b.sav acc.sav hb.2.2, List.map_cons,
            List.sum_cons]
          ring
      · rw [if_neg hr]
        have hf : (b :: t).filter (slotInRange off sl el)
            = t.filter (slotInRange off sl el) := by
          rw [List.filter_cons, if_neg hr]
        rw [hf]
        exact ih acc ht

/-- C7: "today" rollups use half-open local-civil-time boundaries — the
interval in UTC instant space is
`[local midnight today, local midnight tomorrow)`; a BookedSlot
contributes if and only if its `slot_start` instant lies in it (so a
slot at exactly local midnight belongs to today and a slot at 23:45
local the previous day does not), and within the period each component
bucket (`dyn`, `base`, `sav`) is summed independently per component. -/
theorem rollup_today_boundaries (off nowI : ℚ) (booked : List BookedSlot)
    (hnd : ∀ b ∈ booked, (b.dyn.map Prod.fst).Nodup
      ∧ (b.base.map Prod.fst).Nodup ∧ (b.sav.map Prod.fst).Nodup) :
    (periodBounds off nowI "today").1 - off = localMidnightInstant off nowI
    ∧ (periodBounds off nowI "today").2 - off
        = localMidnightInstant off nowI + 86400
    ∧ (∀ b : BookedSlot,
        slotInRange off (periodBounds off nowI "today").1
            (periodBounds off nowI "today").2 b = true
          ↔ localMidnightInstant off nowI ≤ b.start
            ∧ b.start < localMidnightInstant off nowI + 86400)
    ∧ (∀ b : BookedSlot, b.start = localMidnightInstant off nowI →
        slotInRange off (periodBounds off nowI "today").1
          (periodBounds off nowI "today").2 b = true)
    ∧ (∀ b : BookedSlot, b.start = localMidnightInstant off nowI - 900 →
        slotInRange off (periodBounds off nowI "today").1
          (periodBounds off nowI "today").2 b = false)
    ∧ (∀ comp : String,
        alLookupD comp (computePeriodBreakdown off nowI "today" booked).dyn 0
          = ((booked.filter (slotInRange off (periodBounds off nowI "today").1
              (periodBounds off nowI "today").2)).map
              (fun b => alLookupD comp b.dyn 0)).sum
        ∧ alLookupD comp
            (computePeriodBreakdown off nowI "today" booked).base 0
          = ((booked.filter (slotInRange off (periodBounds off nowI "today").1
              (periodBounds off nowI "today").2)).map
              (fun b => alLookupD comp b.base 0)).sum
        ∧ alLookupD comp
            (computePeriodBreakdown off nowI "today" booked).sav 0
          = ((booked.filter (slotInRange off (periodBounds off nowI "today").1
              (periodBounds off nowI "today").2)).map
              (fun b => alLookupD comp b.sav 0)).sum) := by
  have hpb : periodBounds off nowI "today"
      = (floorDay (nowI + off), floorDay (nowI + off) + 86400) := by
    unfold periodBounds
    rw [if_pos rfl]
  have hlm : localMidnightInstant off nowI = floorDay (nowI + off) - off := rfl
  have hiff : ∀ b : BookedSlot,
      slotInRange off (periodBounds off nowI "today").1
          (periodBounds off nowI "today").2 b = true
        ↔ localMidnightInstant off nowI ≤ b.start
          ∧ b.start < localMidnightInstant off nowI + 86400 := by
    intro b
    simp only [hpb, hlm]
    unfold slotInRange
    rw [Bool.and_eq_true, decide_eq_true_eq, decide_eq_true_eq]
    constructor
    · rintro ⟨h1, h2⟩
      exact ⟨h1, by linarith⟩
    · rintro ⟨h1, h2⟩
      exact ⟨h1, by linarith⟩
  refine ⟨by rw [hpb, hlm], by rw [hpb, hlm]; ring, hiff, ?_, ?_, ?_⟩
  · intro b hbs
    rw [hiff b]
    rw [hbs]
    constructor
    · linarith
    · linarith
  · intro b hbs
    rcases hbool : slotInRange off (periodBounds off nowI "today").1
        (periodBounds off nowI "today").2 b with _ | _
    · rfl
    · exfalso
      have := (hiff b).mp hbool
      rw [hbs] at this
      linarith [this.1]
  · intro comp
    have hsum := sumBetween_fold off (periodBounds off nowI "today").1
      (periodBounds off nowI "today").2 comp booked ⟨[], [], []⟩ hnd
    have hcpb : computePeriodBreakdown off nowI "today" booked
        = sumBetweenLocal off (periodBounds off nowI "today").1
            (periodBounds off nowI "today").2 booked := rfl
    have hzero : alLookupD comp ([] : AL) 0 = 0 := rfl
    rw [hcpb]
    unfold sumBetweenLocal
    refine ⟨?_, ?_, ?_⟩
    · rw [hsum.1]
      show alLookupD comp ([] : AL) 0 + _ = _
      rw [hzero]
      ring
    · rw [hsum.2.1]
      show alLookupD comp ([] : AL) 0 + _ = _
      rw [hzero]
      ring
    · rw [hsum.2.2]
      show alLookupD comp ([] : AL) 0 + _ = _
      rw [hzero]
      ring

/-- Witness for C7 with a one-hour-east zone: local midnight instant is
`-3600`; the slot at exactly local midnight contributes, the slot at
23:45 the previous local day does not, and the electricity bucket sums
only the in-range slot. -/
theorem rollup_today_boundaries_witness :
    ((periodBounds 3600 40000 "today").1 - 3600
        = localMidnightInstant 3600 40000
      ∧ (periodBounds 3600 40000 "today").2 - 3600
          = localMidnightInstant 3600 40000 + 86400)
    ∧ slotInRange 3600 (periodBounds 3600 40000 "today").1
        (periodBounds 3600 40000 "today").2
        ⟨-3600, 1, "ok", [("electricity", 2)], [], []⟩ = true
    ∧ slotInRange 3600 (periodBounds 3600 40000 "today").1
        (periodBounds 3600 40000 "today").2
        ⟨-4500, 1, "ok", [("electricity", 5)], [], []⟩ = false
    ∧ alLookupD "electricity"
        (computePeriodBreakdown 3600 40000 "today"
          [⟨-3600, 1, "ok", [("electricity", 2)], [], []⟩,
           ⟨-4500, 1, "ok", [("electricity", 5)], [], []⟩]).dyn 0
      = ((([⟨-3600, 1, "ok", [("electricity", 2)], [], []⟩,
           ⟨-4500, 1, "ok", [("electricity", 5)], [], []⟩] : List BookedSlot).filter
          (slotInRange 3600 (periodBounds 3600 40000 "today").1
            (periodBounds 3600 40000 "today").2)).map
          (fun b => alLookupD "electricity" b.dyn 0)).sum := by
  obtain ⟨h1, h2, h3, h4, h5, h6⟩ := rollup_today_boundaries 3600 40000
    [⟨-3600, 1, "ok", [("electricity", 2)], [], []⟩,
     ⟨-4500, 1, "ok", [("electricity", 5)], [], []⟩]
    (by intro b hb
        simp only [List.mem_cons, List.not_mem_nil, or_false] at hb
        rcases hb with rfl | rfl <;>
          exact ⟨by with_unfolding_all decide, by with_unfolding_all decide,
            by with_unfolding_all decide⟩)
  exact ⟨⟨h1, h2⟩,
    h4 ⟨-3600, 1, "ok", [("electricity", 2)], [], []⟩
      (by norm_num [localMidnightInstant, floorDay]),
    h5 ⟨-4500, 1, "ok", [("electricity", 5)], [], []⟩
      (by norm_num [localMidnightInstant, floorDay]),
    (h6 "electricity").1⟩
